import Mathlib

/-!
Verification of the `workspace` package (internal/pkg/workspace/workspace.go).

The Go code manages a local workspace: it locates the `copilot` marker
directory by walking up from the working directory, reads and writes the
`.workspace` summary file, reads/writes per-workload manifests and addons,
and discovers Dockerfiles.

Embedding conventions:
* A filesystem path is a list of components of the absolute, cleaned path
  (`Path := List String`); `filepath.Dir` is `dropLast` (saturating at the
  root, as in Go) and `filepath.Base` is the last component (`"/"` for the
  root), `filepath.Join` of a directory with plain names is list append.
* The afero filesystem handle is a finite association list from absolute
  paths to entries (files with contents, or directories), together with a
  list of `broken` paths on which `stat` fails with a non-IsNotExist error;
  this models permission/I/O failures of `Exists`/`DirExists`/`ReadDir`/
  `ReadFile`, which several branches of the Go code swallow or propagate.
* File contents are opaque to the workspace code except through the YAML
  codec (an external collaborator).  `Bytes` therefore distinguishes the
  content classes the codec distinguishes: a marshaled workspace summary,
  a well-formed manifest document with a `type` discriminator (other
  fields abstracted by `rest`), and content on which YAML decoding fails.
* `Workspace` methods mutate the receiver (the `copilotDir` cache) and the
  filesystem; the embedding threads both explicitly.
* Relative paths passed to afero (`Mkdir("copilot")`,
  `Remove("copilot/.workspace")`, `ReadDir(subdir)`) are resolved against
  the working directory: `afero.NewOsFs` resolves them against the process
  working directory, which `New` has captured into `ws.workingDir` via
  `os.Getwd`.
-/

namespace CopilotWS

deriving instance DecidableEq for Except

/-- Components of an absolute, cleaned filesystem path. -/
abbrev Path := List String

/-- `filepath.Dir` on a clean absolute path: drop the last component;
the root is its own parent. -/
def pathDir (p : Path) : Path := p.dropLast

/-- `filepath.Base` on a clean absolute path: the last component, `"/"`
for the root. -/
def pathBase (p : Path) : String := (p.getLast?).getD "/"

/-- File contents as the YAML codec distinguishes them: a marshaled
`Summary`, a well-formed manifest document carrying a `type` discriminator
(with `rest` abstracting all other content), or bytes on which
`yaml.Unmarshal` fails. -/
inductive Bytes
| summaryYaml (app : String)
| manifestYaml (wlType : String) (rest : Nat)
| invalidYaml (id : Nat)
deriving DecidableEq, Repr

/-- The error taxonomy of the workspace package.  `wrapctx` models
`fmt.Errorf("...: %w", err)` wrapping with an operation label and the
path/name interpolated into the message. -/
inductive Err
| workspaceNotFound (currentDirectory : Path) (manifestDirectoryName : String) (numberOfLevelsChecked : Nat)
| noAssociatedApplication
| hasExistingApplication (existingAppName : String)
| fileExists (fileName : Path)
| dockerfileNotFound (dir : Path)
| statFailed (p : Path)
| ioFailed (p : Path)
| decodeFailed (id : Nat)
| wrapctx (op : String) (p : Path) (e : Err)
deriving DecidableEq, Repr

/-- A filesystem entry: a regular file with contents, or a directory. -/
inductive Entry
| file (data : Bytes)
| dir
deriving DecidableEq, Repr

def Entry.isDirB : Entry → Bool
| .file _ => false
| .dir => true

/-- The state of the afero filesystem: entries keyed by absolute path, and
the paths on which `stat` fails with a non-IsNotExist error (permission or
I/O failure). -/
structure FS where
  entries : List (Path × Entry)
  broken : List Path
deriving DecidableEq, Repr

/-- First-match lookup in the entry list. -/
def lookupEntries : List (Path × Entry) → Path → Option Entry
| [], _ => none
| qe :: rest, p => if qe.1 = p then some qe.2 else lookupEntries rest p

def FS.lookup (fs : FS) (p : Path) : Option Entry := lookupEntries fs.entries p

/-- `afero.Exists`: stat the path; `(true, nil)` if stat succeeds,
`(false, nil)` if the path does not exist, `(false, err)` on a stat
failure. -/
def FS.pathExists (fs : FS) (p : Path) : Bool × Option Err :=
  if p ∈ fs.broken then (false, some (.statFailed p))
  else ((fs.lookup p).isSome, none)

/-- `afero.DirExists`: `(true, nil)` iff stat succeeds and the entry is a
directory; `(false, err)` on a stat failure. -/
def FS.dirExists (fs : FS) (p : Path) : Bool × Option Err :=
  if p ∈ fs.broken then (false, some (.statFailed p))
  else
    match fs.lookup p with
    | some .dir => (true, none)
    | _ => (false, none)

/-- `afero.ReadFile`: fails on a stat failure, a missing entry, or a
directory. -/
def FS.readFile (fs : FS) (p : Path) : Except Err Bytes :=
  if p ∈ fs.broken then .error (.statFailed p)
  else
    match fs.lookup p with
    | some (.file d) => .ok d
    | _ => .error (.ioFailed p)

/-- Drop every entry keyed by `p`. -/
def removeKey : List (Path × Entry) → Path → List (Path × Entry)
| [], _ => []
| qe :: rest, p => if qe.1 = p then removeKey rest p else qe :: removeKey rest p

/-- Replace or insert the entry at `p`. -/
def setEntry (entries : List (Path × Entry)) (p : Path) (e : Entry) : List (Path × Entry) :=
  (p, e) :: removeKey entries p

/-- `afero.WriteFile` (create or truncate): requires the parent directory
to exist; fails if the target is an existing directory. -/
def FS.writeFile (fs : FS) (p : Path) (data : Bytes) : Except Err FS :=
  match fs.lookup (pathDir p) with
  | some .dir =>
    match fs.lookup p with
    | some .dir => .error (.ioFailed p)
    | _ => .ok { fs with entries := setEntry fs.entries p (.file data) }
  | _ => .error (.ioFailed p)

/-- `Mkdir`: fails if the target exists or the parent directory is
missing. -/
def FS.mkdir (fs : FS) (p : Path) : Except Err FS :=
  match fs.lookup p with
  | some _ => .error (.ioFailed p)
  | none =>
    match fs.lookup (pathDir p) with
    | some .dir => .ok { fs with entries := (p, .dir) :: fs.entries }
    | _ => .error (.ioFailed p)

/-- Worker for `MkdirAll`: walk the components from the root, creating the
missing directories; fail if a non-directory entry is in the way. -/
def mkdirAllFrom : List (Path × Entry) → Path → List String → Except Err (List (Path × Entry))
| entries, _, [] => .ok entries
| entries, base, c :: cs =>
  match lookupEntries entries (base ++ [c]) with
  | some (.file _) => .error (.ioFailed (base ++ [c]))
  | some .dir => mkdirAllFrom entries (base ++ [c]) cs
  | none => mkdirAllFrom ((base ++ [c], Entry.dir) :: entries) (base ++ [c]) cs

/-- `MkdirAll`: create the directory and all missing ancestors; succeeding
on an already-existing directory. -/
def FS.mkdirAll (fs : FS) (p : Path) : Except Err FS :=
  match mkdirAllFrom fs.entries [] p with
  | .error e => .error e
  | .ok es => .ok { fs with entries := es }

/-- `Remove`: delete the entry at `p`; fails if it does not exist. -/
def FS.remove (fs : FS) (p : Path) : Except Err FS :=
  match fs.lookup p with
  | none => .error (.ioFailed p)
  | some _ => .ok { fs with entries := removeKey fs.entries p }

/-- The immediate children of `p` among the entries, as
(base name, is-directory) pairs, in entry-list order. -/
def childEntries (entries : List (Path × Entry)) (p : Path) : List (String × Bool) :=
  entries.filterMap (fun qe =>
    if qe.1 ≠ [] ∧ pathDir qe.1 = p then some (pathBase qe.1, qe.2.isDirB) else none)

/-- Ordering of directory listings: `ReadDir` sorts entries by file name. -/
def nameLe (a b : String × Bool) : Prop := a.1 ≤ b.1

instance : DecidableRel nameLe := fun a b => inferInstanceAs (Decidable (a.1 ≤ b.1))

/-- `afero.ReadDir`: the children of a directory sorted by name; fails on
a stat failure or when the path is not an existing directory. -/
def FS.readDir (fs : FS) (p : Path) : Except Err (List (String × Bool)) :=
  if p ∈ fs.broken then .error (.statFailed p)
  else
    match fs.lookup p with
    | some .dir => .ok (List.insertionSort nameLe (childEntries fs.entries p))
    | _ => .error (.ioFailed p)

/-! Constants from workspace.go. -/

def CopilotDirName : String := "copilot"
def SummaryFileName : String := ".workspace"
def addonsDirName : String := "addons"
def maximumParentDirsToSearch : Nat := 5
def pipelineFileName : String := "pipeline.yml"
def manifestFileName : String := "manifest.yml"
def buildspecFileName : String := "buildspec.yml"
def ymlFileExtension : String := ".yml"
def dockerfileName : String := "Dockerfile"

/-- The workspace summary: `{ application: <name> }`. -/
structure Summary where
  application : String
deriving DecidableEq, Repr

/-- `yaml.Marshal` of a `Summary`. -/
def marshalSummary (app : String) : Bytes := .summaryYaml app

/-- `yaml.Unmarshal` into a `Summary`: a marshaled summary decodes to
itself; any other well-formed YAML document decodes with the zero value
for the missing `application` field; invalid YAML fails. -/
def unmarshalSummary : Bytes → Except Err Summary
| .summaryYaml a => .ok ⟨a⟩
| .manifestYaml _ _ => .ok ⟨""⟩
| .invalidYaml i => .error (.decodeFailed i)

/-- `readWorkloadType`: `yaml.Unmarshal` into a struct holding only the
`type` field.  A document without that field yields the zero value. -/
def unmarshalType : Bytes → Except Err String
| .summaryYaml _ => .ok ""
| .manifestYaml t _ => .ok t
| .invalidYaml i => .error (.decodeFailed i)

/-- The `Workspace` receiver: the working directory captured by `New`, and
the lazily populated `copilotDir` cache (Go uses `""` for "unset"). -/
structure Workspace where
  workingDir : Path
  copilotDir : Option Path
deriving DecidableEq, Repr

/-- Resolve a relative path against the working directory (the process
working directory afero resolves relative paths against). -/
def Workspace.resolve (ws : Workspace) (rel : List String) : Path :=
  ws.workingDir ++ rel

/-- The ancestor-search loop of `CopilotDirPath`: check
`searchingDir/copilot` for `fuel` levels, moving to the parent after each
failed check; a `DirExists` stat failure aborts the search. -/
def searchCopilotDir (fs : FS) : Path → Nat → Except Err (Option Path)
| _, 0 => .ok none
| searchingDir, n+1 =>
  match fs.dirExists (searchingDir ++ [CopilotDirName]) with
  | (_, some e) => .error e
  | (true, none) => .ok (some (searchingDir ++ [CopilotDirName]))
  | (false, none) => searchCopilotDir fs (pathDir searchingDir) n

/-- `CopilotDirPath`: return the cached path if set; otherwise, if the
working directory is itself named `copilot`, cache and return it;
otherwise run the bounded ancestor search, caching a hit, and fail with
`errWorkspaceNotFound` after `maximumParentDirsToSearch` levels. -/
def Workspace.copilotDirPath (ws : Workspace) (fs : FS) : Workspace × Except Err Path :=
  match ws.copilotDir with
  | some p => (ws, .ok p)
  | none =>
    if pathBase ws.workingDir = CopilotDirName then
      ({ ws with copilotDir := some ws.workingDir }, .ok ws.workingDir)
    else
      match searchCopilotDir fs ws.workingDir maximumParentDirsToSearch with
      | .error e => (ws, .error e)
      | .ok (some p) => ({ ws with copilotDir := some p }, .ok p)
      | .ok none => (ws, .error (.workspaceNotFound ws.workingDir CopilotDirName maximumParentDirsToSearch))

/-- `summaryPath`: the `.workspace` file under the copilot directory. -/
def Workspace.summaryPath (ws : Workspace) (fs : FS) : Workspace × Except Err Path :=
  match ws.copilotDirPath fs with
  | (ws1, .error e) => (ws1, .error e)
  | (ws1, .ok cp) => (ws1, .ok (cp ++ [SummaryFileName]))

/-- `Summary`: resolve the summary path; probe existence, **discarding**
any stat error (`summaryFileExists, _ :=`); read and decode when present;
otherwise fail with `errNoAssociatedApplication`. -/
def Workspace.summary (ws : Workspace) (fs : FS) : Workspace × Except Err Summary :=
  match ws.summaryPath fs with
  | (ws1, .error e) => (ws1, .error e)
  | (ws1, .ok sp) =>
    if (fs.pathExists sp).1 then
      match fs.readFile sp with
      | .error e => (ws1, .error e)
      | .ok value => (ws1, unmarshalSummary value)
    else (ws1, .error .noAssociatedApplication)

/-- `writeSummary`: marshal `Summary{appName}` and write it (whole-file
replace) at the summary path. -/
def Workspace.writeSummary (ws : Workspace) (fs : FS) (appName : String) : Workspace × Except Err FS :=
  match ws.summaryPath fs with
  | (ws1, .error e) => (ws1, .error e)
  | (ws1, .ok sp) =>
    match fs.writeFile sp (marshalSummary appName) with
    | .error e => (ws1, .error e)
    | .ok fs1 => (ws1, .ok fs1)

/-- `createCopilotDir`: if `CopilotDirPath` yields a path (its error is
discarded) there is nothing to do; otherwise `Mkdir("copilot")` relative
to the working directory. -/
def Workspace.createCopilotDir (ws : Workspace) (fs : FS) : Workspace × Except Err FS :=
  match ws.copilotDirPath fs with
  | (ws1, .ok _) => (ws1, .ok fs)
  | (ws1, .error _) =>
    match fs.mkdir (ws1.resolve [CopilotDirName]) with
    | .error e => (ws1, .error e)
    | .ok fs1 => (ws1, .ok fs1)

/-- `errors.As(err, &errNoAssociatedApplication{})`: the check unwraps
`fmt.Errorf` wrapping. -/
def isNoAssociatedApplication : Err → Bool
| .noAssociatedApplication => true
| .wrapctx _ _ e => isNoAssociatedApplication e
| _ => false

/-- `Create`: ensure the copilot directory exists, then read the summary:
an existing summary for a different application fails with
`errHasExistingApplication`; the same application is a no-op; a missing
summary (`errNoAssociatedApplication`) is created with `appName`; any
other summary error propagates. -/
def Workspace.create (ws : Workspace) (fs : FS) (appName : String) : Workspace × Except Err FS :=
  match ws.createCopilotDir fs with
  | (ws1, .error e) => (ws1, .error e)
  | (ws1, .ok fs1) =>
    match ws1.summary fs1 with
    | (ws2, .ok s) =>
      if s.application ≠ appName then (ws2, .error (.hasExistingApplication s.application))
      else (ws2, .ok fs1)
    | (ws2, .error e) =>
      if isNoAssociatedApplication e then ws2.writeSummary fs1 appName
      else (ws2, .error e)

/-- `write`: resolve the copilot directory, join the path elements,
create the missing parent directories, fail with `ErrFileExists` if the
target exists (a stat failure of the existence probe is wrapped and
propagated), otherwise write the file and return its path. -/
def Workspace.write (ws : Workspace) (fs : FS) (data : Bytes) (elem : List String) : Workspace × FS × Except Err Path :=
  match ws.copilotDirPath fs with
  | (ws1, .error e) => (ws1, fs, .error e)
  | (ws1, .ok cp) =>
    match fs.mkdirAll (pathDir (cp ++ elem)) with
    | .error e => (ws1, fs, .error (.wrapctx "create directories for file" (cp ++ elem) e))
    | .ok fs1 =>
      match fs1.pathExists (cp ++ elem) with
      | (_, some e) => (ws1, fs1, .error (.wrapctx "check if manifest file exists" (cp ++ elem) e))
      | (ex, none) =>
        if ex then (ws1, fs1, .error (.fileExists (cp ++ elem)))
        else
          match fs1.writeFile (cp ++ elem) data with
          | .error e => (ws1, fs1, .error (.wrapctx "write manifest file" (cp ++ elem) e))
          | .ok fs2 => (ws1, fs2, .ok (cp ++ elem))

/-- `read`: the contents of the file under the copilot directory joined by
the path elements. -/
def Workspace.read (ws : Workspace) (fs : FS) (elem : List String) : Workspace × Except Err Bytes :=
  match ws.copilotDirPath fs with
  | (ws1, .error e) => (ws1, .error e)
  | (ws1, .ok cp) => (ws1, fs.readFile (cp ++ elem))

def Workspace.readWorkloadManifest (ws : Workspace) (fs : FS) (name : String) : Workspace × Except Err Bytes :=
  ws.read fs [name, manifestFileName]

/-- `ReadServiceManifest`: `readWorkloadManifest` with its error wrapped. -/
def Workspace.readServiceManifest (ws : Workspace) (fs : FS) (name : String) : Workspace × Except Err Bytes :=
  match ws.readWorkloadManifest fs name with
  | (ws1, .error e) => (ws1, .error (.wrapctx "read service manifest file" [name] e))
  | (ws1, .ok mf) => (ws1, .ok mf)

/-- `WriteServiceManifest`: marshal (the `encoding.BinaryMarshaler`
collaborator, modeled as its result) and write under
`copilot/{name}/manifest.yml`. -/
def Workspace.writeServiceManifest (ws : Workspace) (fs : FS) (marshaler : Except Err Bytes) (name : String) : Workspace × FS × Except Err Path :=
  match marshaler with
  | .error e => (ws, fs, .error (.wrapctx "marshal service manifest to binary" [name] e))
  | .ok data => ws.write fs data [name, manifestFileName]

/-- `DeleteWorkspaceFile`: `Remove("copilot/.workspace")`, a path relative
to the working directory. -/
def Workspace.deleteWorkspaceFile (ws : Workspace) (fs : FS) : Except Err FS :=
  fs.remove (ws.resolve [CopilotDirName, SummaryFileName])

/-- `ReadAddon`: the contents of `{svc}/addons/{fname}` under the copilot
directory. -/
def Workspace.readAddon (ws : Workspace) (fs : FS) (svc fname : String) : Workspace × Except Err Bytes :=
  ws.read fs [svc, addonsDirName, fname]

/-- `WriteAddon`: marshal the content and write it under
`{svc}/addons/{name}.yml`. -/
def Workspace.writeAddon (ws : Workspace) (fs : FS) (content : Except Err Bytes) (svc name : String) : Workspace × FS × Except Err Path :=
  match content with
  | .error e => (ws, fs, .error (.wrapctx "marshal binary addon content" [] e))
  | .ok data => ws.write fs data [svc, addonsDirName, name ++ ymlFileExtension]

/-- The body of the `workloadNames` loop over the listed entries: skip
non-directories; probe the manifest with `Exists`, **discarding** the
error, and skip when the probe does not report the file; read the manifest
(wrapping a failure) and decode its `type`; keep the name when the
predicate matches. -/
def processWorkloads (fs : FS) (cp : Path) (matchFn : String → Bool) : List (String × Bool) → Except Err (List String)
| [] => .ok []
| nb :: rest =>
  if nb.2 = false then processWorkloads fs cp matchFn rest
  else
    if (fs.pathExists (cp ++ [nb.1, manifestFileName])).1 = false then
      processWorkloads fs cp matchFn rest
    else
      match fs.readFile (cp ++ [nb.1, manifestFileName]) with
      | .error e => .error (.wrapctx "read manifest for workload" [nb.1] e)
      | .ok dat =>
        match unmarshalType dat with
        | .error e => .error e
        | .ok t =>
          match processWorkloads fs cp matchFn rest with
          | .error e => .error e
          | .ok names => .ok (if matchFn t then nb.1 :: names else names)

/-- `workloadNames`: list the copilot directory (wrapping a failure) and
process the entries. -/
def Workspace.workloadNames (ws : Workspace) (fs : FS) (matchFn : String → Bool) : Workspace × Except Err (List String) :=
  match ws.copilotDirPath fs with
  | (ws1, .error e) => (ws1, .error e)
  | (ws1, .ok cp) =>
    match fs.readDir cp with
    | .error e => (ws1, .error (.wrapctx "read directory" cp e))
    | .ok files => (ws1, processWorkloads fs cp matchFn files)

/-- The body of the `ListDockerfiles` loop: a top-level file named
`Dockerfile` contributes `filepath.Dir("Dockerfile") = "."`; for each
top-level directory, list it (relative to the working directory) and
contribute its name once per regular file named `Dockerfile` inside. -/
def collectDockerfileDirs (ws : Workspace) (fs : FS) : List (String × Bool) → Except Err (List String)
| [] => .ok []
| nb :: rest =>
  if nb.2 = false then
    match collectDockerfileDirs ws fs rest with
    | .error e => .error e
    | .ok ds => .ok (if nb.1 = dockerfileName then "." :: ds else ds)
  else
    match fs.readDir (ws.resolve [nb.1]) with
    | .error e => .error (.wrapctx "read directory" [nb.1] e)
    | .ok subFiles =>
      match collectDockerfileDirs ws fs rest with
      | .error e => .error e
      | .ok ds =>
        .ok ((subFiles.filterMap fun f =>
          if f.2 = false ∧ f.1 = dockerfileName then some nb.1 else none) ++ ds)

/-- Ordering used by `sort.Strings`. -/
def strLe (a b : String) : Prop := a ≤ b

instance : DecidableRel strLe := fun a b => inferInstanceAs (Decidable (a ≤ b))

instance : IsTotal String strLe := ⟨fun a b => le_total a b⟩

instance : IsTrans String strLe := ⟨fun _ _ _ h h' => le_trans h h'⟩

instance : IsAntisymm String strLe := ⟨fun _ _ h h' => le_antisymm h h'⟩

/-- `ListDockerfiles`: list the working directory and its immediate
subdirectories; fail with `ErrDockerfileNotFound` when nothing qualifies;
otherwise sort the qualifying directories (`sort.Strings`) and render each
as `<dir>/Dockerfile`. -/
def Workspace.listDockerfiles (ws : Workspace) (fs : FS) : Except Err (List String) :=
  match fs.readDir ws.workingDir with
  | .error e => .error (.wrapctx "read directory" ws.workingDir e)
  | .ok wdFiles =>
    match collectDockerfileDirs ws fs wdFiles with
    | .error e => .error e
    | .ok directories =>
      if directories = [] then .error (.dockerfileNotFound ws.workingDir)
      else .ok ((List.insertionSort strLe directories).map (fun dir => dir ++ "/" ++ dockerfileName))

/-! Auxiliary predicates used to state and prove the properties. -/

/-- The directories `MkdirAll` visits below `base` when creating
`base ++ rest`, all present as directories. -/
def dirsOk (es : List (Path × Entry)) : Path → List String → Prop
| _, [] => True
| base, c :: cs => lookupEntries es (base ++ [c]) = some .dir ∧ dirsOk es (base ++ [c]) cs

/-- The keys `MkdirAll` visits when creating `base ++ rest`. -/
def chainKeys : Path → List String → List Path
| _, [] => []
| base, c :: cs => (base ++ [c]) :: chainKeys (base ++ [c]) cs

/-- The manifest-existence probe of `workloadNames` for one subdirectory
name (the probe's stat error is discarded, as in the code). -/
def probeOk (fs : FS) (cp : Path) (name : String) : Bool :=
  (fs.pathExists (cp ++ [name, manifestFileName])).1

/-- Reading and shallow-decoding the `type` discriminator of one
subdirectory's manifest. -/
def decodeWl (fs : FS) (cp : Path) (name : String) : Except Err String :=
  match fs.readFile (cp ++ [name, manifestFileName]) with
  | .error e => .error e
  | .ok dat => unmarshalType dat

/-- Whether `workloadNames` keeps a subdirectory name: the manifest probe
reports the file and the decoded type satisfies the predicate. -/
def selectedWl (fs : FS) (cp : Path) (matchFn : String → Bool) (name : String) : Bool :=
  probeOk fs cp name && (match decodeWl fs cp name with
   | .ok t => matchFn t
   | .error _ => false)

/-- Whether a regular file named `Dockerfile` sits at `p`. -/
def isDockerfileFileAt (fs : FS) (p : Path) : Bool :=
  match fs.lookup p with
  | some (.file _) => true
  | _ => false

/-- The label an immediate subdirectory contributes to the Dockerfile
scan: its own name, when it holds a regular `Dockerfile` file. -/
def dfDirContrib (fs : FS) (w : Path) (nb : String × Bool) : Option String :=
  if nb.2 = true ∧ isDockerfileFileAt fs (w ++ [nb.1, dockerfileName]) = true then some nb.1 else none

/-- The label any top-level entry contributes to the Dockerfile scan: a
regular file named `Dockerfile` qualifies the invocation directory
(`"."`); a subdirectory qualifies itself when it holds one. -/
def dfContrib (fs : FS) (w : Path) (nb : String × Bool) : Option String :=
  if nb.2 = false then (if nb.1 = dockerfileName then some "." else none)
  else dfDirContrib fs w nb

/-- The qualifying directories of the Dockerfile scan, written from the
spec's words: the invocation directory itself (rendered `"."`) when it
directly holds a regular `Dockerfile` file, and every immediate
subdirectory holding one; used to compare `listDockerfiles` against the
specified two-level scope. -/
def specDockerfileDirs (fs : FS) (w : Path) : List String :=
  (if isDockerfileFileAt fs (w ++ [dockerfileName]) then ["."] else []) ++
    (childEntries fs.entries w).filterMap (dfDirContrib fs w)

/-! The marker-planted scenario family for the ancestor-search bound:
`d = 0` plants the marker as the invocation directory itself (it is
literally named `copilot`); `d ≥ 1` plants it as the `copilot` child of
the `(d-1)`-st ancestor of the invocation directory, so that the marker
sits `d` directory levels above the invocation directory's contents. -/

def ancestorNames : List String := ["s1", "s2", "s3", "s4", "s5"]

/-- The invocation directory of the depth-`d` scenario over base `b`. -/
def plantedInvocationDir (b : Path) (d : Nat) : Path :=
  if d = 0 then b ++ [CopilotDirName] else b ++ ancestorNames.take (d - 1)

/-- The filesystem of the depth-`d` scenario: the marker directory
`b/copilot` and the chain of directories down to the invocation
directory. -/
def plantedFS (b : Path) (d : Nat) : FS :=
  { entries := (b ++ [CopilotDirName], Entry.dir) ::
      (List.range (if d = 0 then 0 else d - 1)).map
        (fun i => (b ++ ancestorNames.take (i + 1), Entry.dir)),
    broken := [] }

/-- A concrete marker directory holding workloads `a : X`, `b : Y`,
`c : X`, used to exercise the enumeration. -/
def exampleWorkloadFS : FS :=
  ⟨[(["r", "copilot"], .dir),
    (["r", "copilot", "a"], .dir),
    (["r", "copilot", "a", "manifest.yml"], .file (.manifestYaml "X" 0)),
    (["r", "copilot", "b"], .dir),
    (["r", "copilot", "b", "manifest.yml"], .file (.manifestYaml "Y" 0)),
    (["r", "copilot", "c"], .dir),
    (["r", "copilot", "c", "manifest.yml"], .file (.manifestYaml "X" 0))], []⟩

/-! ### Lookup and cache lemmas -/

theorem lookupEntries_removeKey_self (es : List (Path × Entry)) (p : Path) :
    lookupEntries (removeKey es p) p = none := by
  induction es with
  | nil => rfl
  | cons e es ih =>
    by_cases he : e.1 = p
    · simpa [removeKey, he] using ih
    · simpa [removeKey, he, lookupEntries] using ih

theorem lookupEntries_removeKey_ne {es : List (Path × Entry)} {p q : Path} (h : q ≠ p) :
    lookupEntries (removeKey es p) q = lookupEntries es q := by
  induction es with
  | nil => rfl
  | cons e es ih =>
    by_cases he : e.1 = p
    · have hq : ¬ e.1 = q := fun hc => h (hc ▸ he ▸ rfl)
      simpa [removeKey, he, lookupEntries, hq, h.symm] using ih
    · by_cases hq : e.1 = q
      · simp [removeKey, he, lookupEntries, hq, h]
      · simpa [removeKey, he, lookupEntries, hq] using ih

theorem lookup_setEntry (es : List (Path × Entry)) (p : Path) (e : Entry) (q : Path) :
    lookupEntries (setEntry es p e) q = if p = q then some e else lookupEntries es q := by
  by_cases h : p = q
  · simp [setEntry, lookupEntries, h, lookupEntries_removeKey_self]
  · simp [setEntry, lookupEntries, h, lookupEntries_removeKey_ne (fun hc : q = p => h hc.symm)]

theorem copilotDirPath_of_cached {ws : Workspace} {p : Path} (fs : FS)
    (h : ws.copilotDir = some p) : ws.copilotDirPath fs = (ws, .ok p) := by
  simp [Workspace.copilotDirPath, h]

theorem copilotDirPath_ok_cache {ws ws1 : Workspace} {fs : FS} {p : Path}
    (h : ws.copilotDirPath fs = (ws1, .ok p)) : ws1.copilotDir = some p := by
  unfold Workspace.copilotDirPath at h
  split at h
  · next q hq =>
    simp only [Prod.mk.injEq, Except.ok.injEq] at h
    obtain ⟨rfl, rfl⟩ := h
    exact hq
  · split at h
    · simp only [Prod.mk.injEq, Except.ok.injEq] at h
      obtain ⟨rfl, rfl⟩ := h
      rfl
    · split at h
      · simp at h
      · simp only [Prod.mk.injEq, Except.ok.injEq] at h
        obtain ⟨rfl, rfl⟩ := h
        rfl
      · simp at h

/-- C8: once `CopilotDirPath` has succeeded on a `Workspace` instance, the
marker path is cached in the instance; every later call returns that very
path with the instance unchanged, independently of the filesystem passed
(no search is performed, even if the filesystem changed underneath). -/
theorem copilotDirPath_memoized {ws ws1 : Workspace} {fs : FS} {p : Path}
    (h : ws.copilotDirPath fs = (ws1, .ok p)) :
    ws1.copilotDir = some p ∧ ∀ fs' : FS, ws1.copilotDirPath fs' = (ws1, .ok p) := by
  have hc := copilotDirPath_ok_cache h
  exact ⟨hc, fun fs' => copilotDirPath_of_cached fs' hc⟩

/-- Witness for C8 at a concrete workspace: the search over a filesystem
holding `a/copilot` caches the found path, and a second call on an empty
(indeed changed) filesystem still returns it. -/
theorem copilotDirPath_memoized_witness :
    (Workspace.copilotDirPath ⟨["a"], none⟩ ⟨[(["a", "copilot"], .dir)], []⟩
        = (⟨["a"], some ["a", "copilot"]⟩, .ok ["a", "copilot"]))
    ∧ (Workspace.copilotDirPath ⟨["a"], some ["a", "copilot"]⟩ ⟨[], []⟩
        = (⟨["a"], some ["a", "copilot"]⟩, .ok ["a", "copilot"])) :=
  ⟨by decide,
   (@copilotDirPath_memoized ⟨["a"], none⟩ ⟨["a"], some ["a", "copilot"]⟩
      ⟨[(["a", "copilot"], .dir)], []⟩ ["a", "copilot"] (by decide)).2 ⟨[], []⟩⟩

/-! ### MkdirAll and write lemmas -/

theorem mkdirAllFrom_mono {es es' : List (Path × Entry)} {base : Path} {rest : List String}
    (h : mkdirAllFrom es base rest = .ok es') {q : Path} {v : Entry}
    (hl : lookupEntries es q = some v) : lookupEntries es' q = some v := by
  induction rest generalizing es base with
  | nil =>
    simp only [mkdirAllFrom, Except.ok.injEq] at h
    exact h ▸ hl
  | cons c cs ih =>
    rw [mkdirAllFrom] at h
    split at h
    · cases h
    · exact ih h hl
    · next hnone =>
      refine ih h ?_
      simp only [lookupEntries]
      split
      · next heq => rw [heq] at hnone; rw [hnone] at hl; cases hl
      · exact hl

theorem mkdirAllFrom_dirsOk {es es' : List (Path × Entry)} {base : Path} {rest : List String}
    (h : mkdirAllFrom es base rest = .ok es') : dirsOk es' base rest := by
  induction rest generalizing es base with
  | nil => trivial
  | cons c cs ih =>
    rw [mkdirAllFrom] at h
    split at h
    · cases h
    · next hdir => exact ⟨mkdirAllFrom_mono h hdir, ih h⟩
    · next hnone =>
      have hhead : lookupEntries ((base ++ [c], Entry.dir) :: es) (base ++ [c]) = some .dir := by
        simp [lookupEntries]
      exact ⟨mkdirAllFrom_mono h hhead, ih h⟩

theorem mkdirAllFrom_noop {es : List (Path × Entry)} {base : Path} {rest : List String}
    (h : dirsOk es base rest) : mkdirAllFrom es base rest = .ok es := by
  induction rest generalizing base with
  | nil => rfl
  | cons c cs ih =>
    obtain ⟨h1, h2⟩ := h
    simp only [mkdirAllFrom, h1]
    exact ih h2

theorem dirsOk_setEntry {es : List (Path × Entry)} {base : Path} {rest : List String}
    {p : Path} {e : Entry}
    (h : dirsOk es base rest) (hp : p ∉ chainKeys base rest) :
    dirsOk (setEntry es p e) base rest := by
  induction rest generalizing base with
  | nil => trivial
  | cons c cs ih =>
    obtain ⟨h1, h2⟩ := h
    simp only [chainKeys, List.mem_cons] at hp
    push_neg at hp
    refine ⟨?_, ih h2 hp.2⟩
    rw [lookup_setEntry, if_neg hp.1]
    exact h1

theorem mem_chainKeys_length {base : Path} {rest : List String} {q : Path}
    (h : q ∈ chainKeys base rest) : q.length ≤ base.length + rest.length := by
  induction rest generalizing base with
  | nil => cases h
  | cons c cs ih =>
    simp only [chainKeys, List.mem_cons] at h
    rcases h with rfl | h
    · simp only [List.length_append, List.length_cons, List.length_nil]
      omega
    · have := ih h
      simp only [List.length_append, List.length_cons, List.length_nil] at this ⊢
      omega

theorem self_not_mem_chainKeys (p : Path) : p ∉ chainKeys [] (pathDir p) := by
  intro h
  have hlen := mem_chainKeys_length h
  cases p with
  | nil => cases h
  | cons a as =>
    simp only [pathDir, List.length_nil, List.length_dropLast, List.length_cons] at hlen
    omega

theorem mkdirAll_ok_spec {fs fs' : FS} {p : Path} (h : fs.mkdirAll p = .ok fs') :
    fs'.broken = fs.broken ∧ mkdirAllFrom fs.entries [] p = .ok fs'.entries := by
  unfold FS.mkdirAll at h
  split at h
  · cases h
  · next heq =>
    cases h
    exact ⟨rfl, heq⟩

theorem writeFile_ok_spec {fs fs' : FS} {p : Path} {data : Bytes}
    (h : fs.writeFile p data = .ok fs') :
    fs'.broken = fs.broken ∧ fs'.entries = setEntry fs.entries p (.file data) := by
  unfold FS.writeFile at h
  split at h
  · split at h
    · cases h
    · cases h
      exact ⟨rfl, rfl⟩
  · cases h

theorem pathExists_none_spec {fs : FS} {p : Path} {b : Bool}
    (h : fs.pathExists p = (b, none)) : p ∉ fs.broken ∧ b = (fs.lookup p).isSome := by
  unfold FS.pathExists at h
  split at h
  · simp at h
  · next hmem =>
    simp only [Prod.mk.injEq] at h
    exact ⟨hmem, h.1.symm⟩

/-- Everything a successful `write` guarantees about its result: the cache
holds the copilot path, the returned path is the joined target, the target
file now holds `data`, the stat-fault set is untouched and did not cover
the target, and every parent directory of the target is present. -/
theorem write_ok_spec {ws ws1 : Workspace} {fs fs1 : FS} {data : Bytes} {elem : List String} {p : Path}
    (h : ws.write fs data elem = (ws1, fs1, .ok p)) :
    ∃ cp, ws1.copilotDir = some cp ∧ p = cp ++ elem ∧
      fs1.broken = fs.broken ∧ p ∉ fs.broken ∧
      fs1.lookup p = some (.file data) ∧
      dirsOk fs1.entries [] (pathDir p) := by
  unfold Workspace.write at h
  split at h
  · simp at h
  · next wsA cp heq =>
    split at h
    · simp at h
    · next fsMk heq2 =>
      split at h
      · simp at h
      · next ex heq3 =>
        split at h
        · simp at h
        · split at h
          · simp at h
          · next fs2 heq4 =>
            simp only [Prod.mk.injEq, Except.ok.injEq] at h
            obtain ⟨rfl, rfl, rfl⟩ := h
            obtain ⟨hbrMk, hfromMk⟩ := mkdirAll_ok_spec heq2
            obtain ⟨hbr2, hent2⟩ := writeFile_ok_spec heq4
            obtain ⟨hnb, -⟩ := pathExists_none_spec heq3
            refine ⟨cp, copilotDirPath_ok_cache heq, rfl, by rw [hbr2, hbrMk],
              by rw [hbrMk] at hnb; exact hnb, ?_, ?_⟩
            · rw [FS.lookup, hent2, lookup_setEntry, if_pos rfl]
            · rw [hent2]
              exact dirsOk_setEntry (mkdirAllFrom_dirsOk hfromMk) (self_not_mem_chainKeys _)

/-- A `write` against an instance whose cache holds `cp`, when the target
already exists (and its parents do), fails with `ErrFileExists` and
changes nothing. -/
theorem write_exists_fails {ws1 : Workspace} {fs1 : FS} {cp : Path} {elem : List String} (d2 : Bytes)
    (hc : ws1.copilotDir = some cp)
    (hb : (cp ++ elem) ∉ fs1.broken)
    (hl : (fs1.lookup (cp ++ elem)).isSome = true)
    (hd : dirsOk fs1.entries [] (pathDir (cp ++ elem))) :
    ws1.write fs1 d2 elem = (ws1, fs1, .error (.fileExists (cp ++ elem))) := by
  have hmk : fs1.mkdirAll (pathDir (cp ++ elem)) = .ok fs1 := by
    unfold FS.mkdirAll
    rw [mkdirAllFrom_noop hd]
  have hex : fs1.pathExists (cp ++ elem) = (true, none) := by
    unfold FS.pathExists
    rw [if_neg hb, hl]
  unfold Workspace.write
  rw [copilotDirPath_of_cached fs1 hc]
  simp [hmk, hex]

/-- Reading back through the cache returns the stored contents. -/
theorem read_back {ws1 : Workspace} {fs1 : FS} {cp : Path} {elem : List String} {data : Bytes}
    (hc : ws1.copilotDir = some cp)
    (hb : (cp ++ elem) ∉ fs1.broken)
    (hl : fs1.lookup (cp ++ elem) = some (.file data)) :
    ws1.read fs1 elem = (ws1, .ok data) := by
  unfold Workspace.read
  rw [copilotDirPath_of_cached fs1 hc]
  simp [FS.readFile, hb, hl]

/-- C2: after a successful manifest write for a name, a second manifest
write to the same name fails with `FileExists` carrying the same path and
leaves the workspace and filesystem unchanged, and reading the manifest
back still yields the first payload — a manifest write never overwrites an
existing file. -/
theorem writeServiceManifest_no_overwrite {ws ws1 : Workspace} {fs fs1 : FS}
    {d1 : Bytes} {name : String} {p : Path} (d2 : Bytes)
    (h : ws.writeServiceManifest fs (.ok d1) name = (ws1, fs1, .ok p)) :
    ws1.writeServiceManifest fs1 (.ok d2) name = (ws1, fs1, .error (.fileExists p))
    ∧ ws1.readServiceManifest fs1 name = (ws1, .ok d1) := by
  have h' : ws.write fs d1 [name, manifestFileName] = (ws1, fs1, .ok p) := h
  obtain ⟨cp, hc, rfl, hbr, hnb, hl, hd⟩ := write_ok_spec h'
  rw [← hbr] at hnb
  constructor
  · show ws1.write fs1 d2 [name, manifestFileName] = _
    exact write_exists_fails d2 hc hnb (by rw [hl]; rfl) hd
  · unfold Workspace.readServiceManifest Workspace.readWorkloadManifest
    rw [read_back hc hnb hl]

/-- Witness for C2: writing `svcA`'s manifest on a concrete filesystem
succeeds, and the theorem applies to forbid the overwrite. -/
theorem writeServiceManifest_no_overwrite_witness :
    (Workspace.writeServiceManifest ⟨["r"], none⟩ ⟨[(["r"], .dir), (["r", "copilot"], .dir)], []⟩
        (.ok (.manifestYaml "X" 0)) "svcA"
      = (⟨["r"], some ["r", "copilot"]⟩,
         ⟨[(["r", "copilot", "svcA", "manifest.yml"], .file (.manifestYaml "X" 0)),
           (["r", "copilot", "svcA"], .dir),
           (["r"], .dir), (["r", "copilot"], .dir)], []⟩,
         .ok ["r", "copilot", "svcA", "manifest.yml"]))
    ∧ (Workspace.writeServiceManifest ⟨["r"], some ["r", "copilot"]⟩
        ⟨[(["r", "copilot", "svcA", "manifest.yml"], .file (.manifestYaml "X" 0)),
          (["r", "copilot", "svcA"], .dir),
          (["r"], .dir), (["r", "copilot"], .dir)], []⟩
        (.ok (.manifestYaml "Y" 1)) "svcA"
      = (⟨["r"], some ["r", "copilot"]⟩,
         ⟨[(["r", "copilot", "svcA", "manifest.yml"], .file (.manifestYaml "X" 0)),
           (["r", "copilot", "svcA"], .dir),
           (["r"], .dir), (["r", "copilot"], .dir)], []⟩,
         .error (.fileExists ["r", "copilot", "svcA", "manifest.yml"]))
      ∧ Workspace.readServiceManifest ⟨["r"], some ["r", "copilot"]⟩
        ⟨[(["r", "copilot", "svcA", "manifest.yml"], .file (.manifestYaml "X" 0)),
          (["r", "copilot", "svcA"], .dir),
          (["r"], .dir), (["r", "copilot"], .dir)], []⟩ "svcA"
      = (⟨["r"], some ["r", "copilot"]⟩, .ok (.manifestYaml "X" 0))) :=
  ⟨by decide,
   @writeServiceManifest_no_overwrite ⟨["r"], none⟩ ⟨["r"], some ["r", "copilot"]⟩
     ⟨[(["r"], .dir), (["r", "copilot"], .dir)], []⟩
     ⟨[(["r", "copilot", "svcA", "manifest.yml"], .file (.manifestYaml "X" 0)),
       (["r", "copilot", "svcA"], .dir),
       (["r"], .dir), (["r", "copilot"], .dir)], []⟩
     (.manifestYaml "X" 0) "svcA" ["r", "copilot", "svcA", "manifest.yml"]
     (.manifestYaml "Y" 1) (by decide)⟩

/-- C9: after a successful addon write of payload `data` for entity `svc`
under base name `name` (stored at `{svc}/addons/{name}.yml`), reading the
addon back as `name ++ ".yml"` returns the identical payload. -/
theorem writeAddon_readAddon_roundtrip {ws ws1 : Workspace} {fs fs1 : FS}
    {data : Bytes} {svc name : String} {p : Path}
    (h : ws.writeAddon fs (.ok data) svc name = (ws1, fs1, .ok p)) :
    ws1.readAddon fs1 svc (name ++ ".yml") = (ws1, .ok data) := by
  have h' : ws.write fs data [svc, addonsDirName, name ++ ymlFileExtension] = (ws1, fs1, .ok p) := h
  obtain ⟨cp, hc, rfl, hbr, hnb, hl, hd⟩ := write_ok_spec h'
  rw [← hbr] at hnb
  exact read_back hc hnb hl

/-- Witness for C9 on a concrete filesystem. -/
theorem writeAddon_readAddon_roundtrip_witness :
    (Workspace.writeAddon ⟨["r"], none⟩ ⟨[(["r"], .dir), (["r", "copilot"], .dir)], []⟩
        (.ok (.invalidYaml 3)) "svcA" "policy"
      = (⟨["r"], some ["r", "copilot"]⟩,
         ⟨[(["r", "copilot", "svcA", "addons", "policy.yml"], .file (.invalidYaml 3)),
           (["r", "copilot", "svcA", "addons"], .dir),
           (["r", "copilot", "svcA"], .dir),
           (["r"], .dir), (["r", "copilot"], .dir)], []⟩,
         .ok ["r", "copilot", "svcA", "addons", "policy.yml"]))
    ∧ Workspace.readAddon ⟨["r"], some ["r", "copilot"]⟩
        ⟨[(["r", "copilot", "svcA", "addons", "policy.yml"], .file (.invalidYaml 3)),
          (["r", "copilot", "svcA", "addons"], .dir),
          (["r", "copilot", "svcA"], .dir),
          (["r"], .dir), (["r", "copilot"], .dir)], []⟩ "svcA" ("policy" ++ ".yml")
      = (⟨["r"], some ["r", "copilot"]⟩, .ok (.invalidYaml 3)) :=
  ⟨by decide,
   @writeAddon_readAddon_roundtrip ⟨["r"], none⟩ ⟨["r"], some ["r", "copilot"]⟩
     ⟨[(["r"], .dir), (["r", "copilot"], .dir)], []⟩
     ⟨[(["r", "copilot", "svcA", "addons", "policy.yml"], .file (.invalidYaml 3)),
       (["r", "copilot", "svcA", "addons"], .dir),
       (["r", "copilot", "svcA"], .dir),
       (["r"], .dir), (["r", "copilot"], .dir)], []⟩
     (.invalidYaml 3) "svcA" "policy" ["r", "copilot", "svcA", "addons", "policy.yml"]
     (by decide)⟩

/-- C10: when the summary path resolves but its existence probe fails with
a stat error, `Summary` discards that error and reports
`errNoAssociatedApplication` — an unreadable summary path is reported as
"never initialized" rather than as an I/O failure (even if the summary
file is in fact present). -/
theorem summary_statError_reports_not_associated {ws ws1 : Workspace} {fs : FS} {cp : Path}
    (hcc : ws.copilotDirPath fs = (ws1, .ok cp))
    (hb : (cp ++ [SummaryFileName]) ∈ fs.broken) :
    ws.summary fs = (ws1, .error .noAssociatedApplication) := by
  unfold Workspace.summary Workspace.summaryPath
  rw [hcc]
  simp [FS.pathExists, hb]

/-- Witness for C10: the summary file exists and holds a valid summary,
but its path is stat-broken; `Summary` still reports "not associated". -/
theorem summary_statError_reports_not_associated_witness :
    (Workspace.copilotDirPath ⟨["r"], some ["r", "copilot"]⟩
        ⟨[(["r", "copilot"], .dir), (["r", "copilot", ".workspace"], .file (.summaryYaml "acme"))],
          [["r", "copilot", ".workspace"]]⟩
      = (⟨["r"], some ["r", "copilot"]⟩, .ok ["r", "copilot"]))
    ∧ Workspace.summary ⟨["r"], some ["r", "copilot"]⟩
        ⟨[(["r", "copilot"], .dir), (["r", "copilot", ".workspace"], .file (.summaryYaml "acme"))],
          [["r", "copilot", ".workspace"]]⟩
      = (⟨["r"], some ["r", "copilot"]⟩, .error .noAssociatedApplication) :=
  ⟨by decide,
   @summary_statError_reports_not_associated ⟨["r"], some ["r", "copilot"]⟩
     ⟨["r"], some ["r", "copilot"]⟩
     ⟨[(["r", "copilot"], .dir), (["r", "copilot", ".workspace"], .file (.summaryYaml "acme"))],
       [["r", "copilot", ".workspace"]]⟩
     ["r", "copilot"] (by decide) (by decide)⟩

/-- C7 (amended): `DeleteWorkspaceFile` removes exactly the
working-directory-relative file `copilot/.workspace`; when the marker
directory is the `copilot` child of the working directory — the
hypothesis below — that is the marker's summary file, and every other
path's entry and the stat-fault set are untouched.  The unamended claim
(removal of the marker's summary with no assumption on where the marker
was resolved) is refuted by
`deleteWorkspaceFile_inside_marker_counterexample`: the code hard-codes
the relative path instead of resolving through `CopilotDirPath`. -/
theorem deleteWorkspaceFile_removes_only_summary {ws ws1 : Workspace} {fs : FS} {cp : Path} {e : Entry}
    (hm : ws.copilotDirPath fs = (ws1, .ok cp))
    (hcp : cp = ws.workingDir ++ [CopilotDirName])
    (he : fs.lookup (cp ++ [SummaryFileName]) = some e) :
    ∃ fs', ws.deleteWorkspaceFile fs = .ok fs' ∧
      fs'.lookup (cp ++ [SummaryFileName]) = none ∧
      (∀ q, q ≠ cp ++ [SummaryFileName] → fs'.lookup q = fs.lookup q) ∧
      fs'.broken = fs.broken := by
  subst hcp
  have htgt : ws.workingDir ++ [CopilotDirName] ++ [SummaryFileName]
      = ws.resolve [CopilotDirName, SummaryFileName] := by
    simp [Workspace.resolve]
  rw [htgt] at he ⊢
  unfold Workspace.deleteWorkspaceFile
  unfold FS.remove
  rw [he]
  refine ⟨_, rfl, ?_, ?_, rfl⟩
  · exact lookupEntries_removeKey_self fs.entries _
  · exact fun q hq => lookupEntries_removeKey_ne hq

/-- Witness for C7: deleting the summary on a concrete filesystem removes
`.workspace` and leaves the manifest entry alone. -/
theorem deleteWorkspaceFile_removes_only_summary_witness :
    (Workspace.copilotDirPath ⟨["r"], none⟩
        ⟨[(["r", "copilot"], .dir), (["r", "copilot", ".workspace"], .file (.summaryYaml "acme")),
          (["r", "copilot", "svcA", "manifest.yml"], .file (.manifestYaml "X" 0))], []⟩
      = (⟨["r"], some ["r", "copilot"]⟩, .ok ["r", "copilot"]))
    ∧ ∃ fs', Workspace.deleteWorkspaceFile ⟨["r"], none⟩
        ⟨[(["r", "copilot"], .dir), (["r", "copilot", ".workspace"], .file (.summaryYaml "acme")),
          (["r", "copilot", "svcA", "manifest.yml"], .file (.manifestYaml "X" 0))], []⟩ = .ok fs'
      ∧ fs'.lookup (["r", "copilot"] ++ [SummaryFileName]) = none
      ∧ (∀ q, q ≠ ["r", "copilot"] ++ [SummaryFileName] →
          fs'.lookup q = FS.lookup ⟨[(["r", "copilot"], .dir),
            (["r", "copilot", ".workspace"], .file (.summaryYaml "acme")),
            (["r", "copilot", "svcA", "manifest.yml"], .file (.manifestYaml "X" 0))], []⟩ q)
      ∧ fs'.broken = ([] : List Path) :=
  ⟨by decide,
   @deleteWorkspaceFile_removes_only_summary ⟨["r"], none⟩ ⟨["r"], some ["r", "copilot"]⟩
     ⟨[(["r", "copilot"], .dir), (["r", "copilot", ".workspace"], .file (.summaryYaml "acme")),
       (["r", "copilot", "svcA", "manifest.yml"], .file (.manifestYaml "X" 0))], []⟩
     ["r", "copilot"] (.file (.summaryYaml "acme")) (by decide) (by decide) (by decide)⟩

/-- C7 counterexample to the unamended claim: invoked from *inside* the
marker directory (the working directory `r/copilot` is itself the marker,
as `CopilotDirPath` resolves — first conjunct), `DeleteWorkspaceFile`
still targets the working-directory-relative `copilot/.workspace`.  Here
that is `r/copilot/copilot/.workspace`, a nested non-summary file under
the marker: the call succeeds (second conjunct), the marker's actual
summary `r/copilot/.workspace` is left in place (third conjunct), and the
nested non-summary file is the one removed (fourth conjunct).  So the
code does not "remove exactly the summary file under the marker directory
and leave every other file under it unchanged". -/
theorem deleteWorkspaceFile_inside_marker_counterexample :
    (Workspace.copilotDirPath ⟨["r", "copilot"], none⟩
        ⟨[(["r", "copilot"], .dir),
          (["r", "copilot", ".workspace"], .file (.summaryYaml "acme")),
          (["r", "copilot", "copilot"], .dir),
          (["r", "copilot", "copilot", ".workspace"], .file (.invalidYaml 9))], []⟩
      = (⟨["r", "copilot"], some ["r", "copilot"]⟩, .ok ["r", "copilot"]))
    ∧ ∃ fs', Workspace.deleteWorkspaceFile ⟨["r", "copilot"], none⟩
        ⟨[(["r", "copilot"], .dir),
          (["r", "copilot", ".workspace"], .file (.summaryYaml "acme")),
          (["r", "copilot", "copilot"], .dir),
          (["r", "copilot", "copilot", ".workspace"], .file (.invalidYaml 9))], []⟩ = .ok fs'
      ∧ fs'.lookup (["r", "copilot"] ++ [SummaryFileName]) = some (.file (.summaryYaml "acme"))
      ∧ fs'.lookup (["r", "copilot"] ++ ["copilot", SummaryFileName]) = none := by
  refine ⟨by decide, ?_⟩
  refine ⟨⟨[(["r", "copilot"], .dir),
    (["r", "copilot", ".workspace"], .file (.summaryYaml "acme")),
    (["r", "copilot", "copilot"], .dir)], []⟩, ?_, by decide, by decide⟩
  decide

/-! ### Create / Summary lemmas -/

theorem readFile_ok_spec {fs : FS} {p : Path} {c : Bytes} (h : fs.readFile p = .ok c) :
    p ∉ fs.broken ∧ fs.lookup p = some (.file c) := by
  unfold FS.readFile at h
  split at h
  · cases h
  · next hmem =>
    split at h
    · next heq =>
      cases h
      exact ⟨hmem, heq⟩
    · cases h

theorem mkdir_ok_broken {fs fs' : FS} {p : Path} (h : fs.mkdir p = .ok fs') :
    fs'.broken = fs.broken := by
  unfold FS.mkdir at h
  split at h
  · cases h
  · split at h
    · cases h
      rfl
    · cases h

theorem createCopilotDir_ok_broken {ws ws1 : Workspace} {fs fs1 : FS}
    (h : ws.createCopilotDir fs = (ws1, .ok fs1)) : fs1.broken = fs.broken := by
  unfold Workspace.createCopilotDir at h
  split at h
  · simp only [Prod.mk.injEq, Except.ok.injEq] at h
    rw [← h.2]
  · split at h
    · simp at h
    · next heq =>
      simp only [Prod.mk.injEq, Except.ok.injEq] at h
      rw [← h.2]
      exact mkdir_ok_broken heq

theorem summaryPath_of_ok {ws ws1 : Workspace} {fs : FS} {cp : Path}
    (h : ws.copilotDirPath fs = (ws1, .ok cp)) :
    ws.summaryPath fs = (ws1, .ok (cp ++ [SummaryFileName])) := by
  unfold Workspace.summaryPath
  rw [h]

theorem summaryPath_of_error {ws ws1 : Workspace} {fs : FS} {e : Err}
    (h : ws.copilotDirPath fs = (ws1, .error e)) :
    ws.summaryPath fs = (ws1, .error e) := by
  unfold Workspace.summaryPath
  rw [h]

theorem summary_ok_spec {ws ws1 : Workspace} {fs : FS} {s : Summary}
    (h : ws.summary fs = (ws1, .ok s)) :
    ∃ cp c, ws.copilotDirPath fs = (ws1, .ok cp) ∧
      fs.lookup (cp ++ [SummaryFileName]) = some (.file c) ∧
      unmarshalSummary c = .ok s := by
  rcases hcp : ws.copilotDirPath fs with ⟨wsA, rcp⟩
  unfold Workspace.summary at h
  cases rcp with
  | error e =>
    rw [summaryPath_of_error hcp] at h
    simp at h
  | ok cp =>
    rw [summaryPath_of_ok hcp] at h
    dsimp only at h
    split at h
    · split at h
      · simp at h
      · next c heqr =>
        simp only [Prod.mk.injEq] at h
        obtain ⟨rfl, hu⟩ := h
        obtain ⟨-, hl⟩ := readFile_ok_spec heqr
        exact ⟨cp, c, rfl, hl, hu⟩
    · simp at h

theorem writeSummary_ok_spec {ws ws1 : Workspace} {fs fs1 : FS} {n : String}
    (h : ws.writeSummary fs n = (ws1, .ok fs1)) :
    ∃ cp, ws.copilotDirPath fs = (ws1, .ok cp) ∧ fs1.broken = fs.broken ∧
      fs1.entries = setEntry fs.entries (cp ++ [SummaryFileName]) (.file (.summaryYaml n)) := by
  rcases hcp : ws.copilotDirPath fs with ⟨wsA, rcp⟩
  unfold Workspace.writeSummary at h
  cases rcp with
  | error e =>
    rw [summaryPath_of_error hcp] at h
    simp at h
  | ok cp =>
    rw [summaryPath_of_ok hcp] at h
    dsimp only at h
    split at h
    · simp at h
    · next fsW heqw =>
      simp only [Prod.mk.injEq, Except.ok.injEq] at h
      obtain ⟨rfl, rfl⟩ := h
      obtain ⟨hbr, hent⟩ := writeFile_ok_spec heqw
      exact ⟨cp, rfl, hbr, hent⟩

/-- What a successful `Create` leaves behind: the marker path is cached,
stat faults are untouched (none to begin with), and the summary file under
the marker decodes to exactly the requested application name. -/
theorem create_ok_spec {ws ws1 : Workspace} {fs fs1 : FS} {n : String}
    (hb : fs.broken = []) (h : ws.create fs n = (ws1, .ok fs1)) :
    ∃ cp c, ws1.copilotDir = some cp ∧ fs1.broken = [] ∧
      fs1.lookup (cp ++ [SummaryFileName]) = some (.file c) ∧
      unmarshalSummary c = .ok ⟨n⟩ := by
  unfold Workspace.create at h
  split at h
  · simp at h
  · next wsA fsA heqC =>
    have hbA : fsA.broken = [] := by rw [createCopilotDir_ok_broken heqC, hb]
    split at h
    · next wsB s heqS =>
      split at h
      · simp at h
      · next hne =>
        simp only [Prod.mk.injEq, Except.ok.injEq] at h
        obtain ⟨rfl, rfl⟩ := h
        obtain ⟨cp, c, hcc, hl, hu⟩ := summary_ok_spec heqS
        have hs : s = ⟨n⟩ := by
          cases s
          simp only [ne_eq, Decidable.not_not] at hne
          rw [hne]
        exact ⟨cp, c, copilotDirPath_ok_cache hcc, hbA, hl, hs ▸ hu⟩
    · next wsB e heqS =>
      split at h
      · obtain ⟨cp, hcc, hbr, hent⟩ := writeSummary_ok_spec h
        refine ⟨cp, .summaryYaml n, copilotDirPath_ok_cache hcc, by rw [hbr, hbA], ?_, rfl⟩
        rw [FS.lookup, hent, lookup_setEntry, if_pos rfl]
      · simp at h

/-- The behavior of a `Create` call on a workspace whose cache holds `cp`
and whose summary file decodes to application `n`: a matching name is a
no-op success, a different name fails with `errHasExistingApplication`
carrying the existing name; the summary read is unchanged either way. -/
theorem create_after_ok {ws1 : Workspace} {fs1 : FS} {cp : Path} {c : Bytes} {n : String} (m : String)
    (hc : ws1.copilotDir = some cp) (hb : fs1.broken = [])
    (hl : fs1.lookup (cp ++ [SummaryFileName]) = some (.file c))
    (hu : unmarshalSummary c = .ok ⟨n⟩) :
    ws1.summary fs1 = (ws1, .ok ⟨n⟩)
    ∧ ws1.create fs1 m = (if n = m then (ws1, .ok fs1) else (ws1, .error (.hasExistingApplication n))) := by
  have hnb : (cp ++ [SummaryFileName]) ∉ fs1.broken := by
    rw [hb]
    simp
  have hsum : ws1.summary fs1 = (ws1, .ok ⟨n⟩) := by
    unfold Workspace.summary
    rw [summaryPath_of_ok (copilotDirPath_of_cached fs1 hc)]
    simp [FS.pathExists, FS.readFile, hnb, hl, hu]
  have hccd : ws1.createCopilotDir fs1 = (ws1, .ok fs1) := by
    unfold Workspace.createCopilotDir
    rw [copilotDirPath_of_cached fs1 hc]
  refine ⟨hsum, ?_⟩
  unfold Workspace.create
  rw [hccd]
  simp only [hsum]
  by_cases hnm : n = m
  · simp [hnm]
  · simp [hnm]

/-- C5: `Create` is idempotent: if `Create(n)` succeeded, running it again
succeeds as a no-op on the same state, and the summary record reads back
application `n`. -/
theorem create_idempotent {ws ws1 : Workspace} {fs fs1 : FS} {n : String}
    (hb : fs.broken = []) (h : ws.create fs n = (ws1, .ok fs1)) :
    ws1.create fs1 n = (ws1, .ok fs1) ∧ (ws1.summary fs1).2 = .ok ⟨n⟩ := by
  obtain ⟨cp, c, hc, hb1, hl, hu⟩ := create_ok_spec hb h
  obtain ⟨hsum, hcr⟩ := create_after_ok n hc hb1 hl hu
  rw [if_pos rfl] at hcr
  exact ⟨hcr, by rw [hsum]⟩

/-- Witness for C5: `Create("acme")` from a fresh workspace succeeds, and
the theorem yields the idempotent re-run. -/
theorem create_idempotent_witness :
    (Workspace.create ⟨["r"], none⟩ ⟨[(["r"], .dir)], []⟩ "acme"
      = (⟨["r"], some ["r", "copilot"]⟩,
         .ok ⟨[(["r", "copilot", ".workspace"], .file (.summaryYaml "acme")),
               (["r", "copilot"], .dir), (["r"], .dir)], []⟩))
    ∧ (Workspace.create ⟨["r"], some ["r", "copilot"]⟩
        ⟨[(["r", "copilot", ".workspace"], .file (.summaryYaml "acme")),
          (["r", "copilot"], .dir), (["r"], .dir)], []⟩ "acme"
      = (⟨["r"], some ["r", "copilot"]⟩,
         .ok ⟨[(["r", "copilot", ".workspace"], .file (.summaryYaml "acme")),
               (["r", "copilot"], .dir), (["r"], .dir)], []⟩)
      ∧ (Workspace.summary ⟨["r"], some ["r", "copilot"]⟩
          ⟨[(["r", "copilot", ".workspace"], .file (.summaryYaml "acme")),
            (["r", "copilot"], .dir), (["r"], .dir)], []⟩).2 = .ok ⟨"acme"⟩) :=
  ⟨by decide,
   @create_idempotent ⟨["r"], none⟩ ⟨["r"], some ["r", "copilot"]⟩
     ⟨[(["r"], .dir)], []⟩
     ⟨[(["r", "copilot", ".workspace"], .file (.summaryYaml "acme")),
       (["r", "copilot"], .dir), (["r"], .dir)], []⟩
     "acme" (by decide) (by decide)⟩

/-- C4: after `Create(n1)` succeeds, a `Create(n2)` with `n2 ≠ n1` on the
same root fails with `errHasExistingApplication` carrying the existing
name `n1`, performs no write, and the stored summary still reads back
`n1`. -/
theorem create_different_name_fails {ws ws1 : Workspace} {fs fs1 : FS} {n1 n2 : String}
    (hb : fs.broken = []) (hne : n1 ≠ n2)
    (h : ws.create fs n1 = (ws1, .ok fs1)) :
    ws1.create fs1 n2 = (ws1, .error (.hasExistingApplication n1))
    ∧ (ws1.summary fs1).2 = .ok ⟨n1⟩ := by
  obtain ⟨cp, c, hc, hb1, hl, hu⟩ := create_ok_spec hb h
  obtain ⟨hsum, hcr⟩ := create_after_ok n2 hc hb1 hl hu
  rw [if_neg hne] at hcr
  exact ⟨hcr, by rw [hsum]⟩

/-- Witness for C4: `Create("acme")` then `Create("globex")` on the same
concrete root. -/
theorem create_different_name_fails_witness :
    (Workspace.create ⟨["r"], none⟩ ⟨[(["r"], .dir)], []⟩ "acme"
      = (⟨["r"], some ["r", "copilot"]⟩,
         .ok ⟨[(["r", "copilot", ".workspace"], .file (.summaryYaml "acme")),
               (["r", "copilot"], .dir), (["r"], .dir)], []⟩))
    ∧ ("acme" ≠ "globex")
    ∧ (Workspace.create ⟨["r"], some ["r", "copilot"]⟩
        ⟨[(["r", "copilot", ".workspace"], .file (.summaryYaml "acme")),
          (["r", "copilot"], .dir), (["r"], .dir)], []⟩ "globex"
      = (⟨["r"], some ["r", "copilot"]⟩, .error (.hasExistingApplication "acme"))
      ∧ (Workspace.summary ⟨["r"], some ["r", "copilot"]⟩
          ⟨[(["r", "copilot", ".workspace"], .file (.summaryYaml "acme")),
            (["r", "copilot"], .dir), (["r"], .dir)], []⟩).2 = .ok ⟨"acme"⟩) :=
  ⟨by decide, by decide,
   @create_different_name_fails ⟨["r"], none⟩ ⟨["r"], some ["r", "copilot"]⟩
     ⟨[(["r"], .dir)], []⟩
     ⟨[(["r", "copilot", ".workspace"], .file (.summaryYaml "acme")),
       (["r", "copilot"], .dir), (["r"], .dir)], []⟩
     "acme" "globex" (by decide) (by decide) (by decide)⟩

/-! ### The ancestor-search bound -/

/-- C1: over any base directory `b` (itself not named `copilot`), with the
marker directory planted at ancestor depth `d` above the invocation
directory — `d = 0` meaning the invocation directory is itself the marker,
`d ≥ 1` meaning the marker is the `copilot` child of the `(d-1)`-st
ancestor — `CopilotDirPath` returns the marker's absolute path `b/copilot`
for every `d ≤ 5`, and fails with `errWorkspaceNotFound` (recording the
invocation directory, the marker name, and the 5 levels checked) for
`d = 6`. -/
theorem copilotDirPath_planted_depths (b : Path) (hb : pathBase b ≠ CopilotDirName) :
    (∀ d, d ≤ 5 →
      (Workspace.copilotDirPath ⟨plantedInvocationDir b d, none⟩ (plantedFS b d)).2
        = .ok (b ++ [CopilotDirName]))
    ∧ (Workspace.copilotDirPath ⟨plantedInvocationDir b 6, none⟩ (plantedFS b 6)).2
        = .error (.workspaceNotFound (plantedInvocationDir b 6) CopilotDirName
            maximumParentDirsToSearch) := by
  constructor
  · intro d hd
    interval_cases d
    · simp [plantedInvocationDir, plantedFS, ancestorNames, Workspace.copilotDirPath,
        searchCopilotDir, FS.dirExists, FS.lookup, lookupEntries, pathDir, pathBase,
        CopilotDirName, maximumParentDirsToSearch, List.append_assoc, hb]
    · have hb' : ¬ ((List.getLast? b).getD "/" = "copilot") := hb
      simp [plantedInvocationDir, plantedFS, ancestorNames, Workspace.copilotDirPath,
        searchCopilotDir, FS.dirExists, FS.lookup, lookupEntries, pathDir, pathBase,
        CopilotDirName, maximumParentDirsToSearch, List.append_assoc, hb']
    · simp [plantedInvocationDir, plantedFS, ancestorNames, Workspace.copilotDirPath,
        searchCopilotDir, FS.dirExists, FS.lookup, lookupEntries, pathDir, pathBase,
        CopilotDirName, maximumParentDirsToSearch, List.append_assoc, hb]
    · simp [plantedInvocationDir, plantedFS, ancestorNames, Workspace.copilotDirPath,
        searchCopilotDir, FS.dirExists, FS.lookup, lookupEntries, pathDir, pathBase,
        CopilotDirName, maximumParentDirsToSearch, List.append_assoc, hb]
    · simp [plantedInvocationDir, plantedFS, ancestorNames, Workspace.copilotDirPath,
        searchCopilotDir, FS.dirExists, FS.lookup, lookupEntries, pathDir, pathBase,
        CopilotDirName, maximumParentDirsToSearch, List.append_assoc, hb]
    · simp [plantedInvocationDir, plantedFS, ancestorNames, Workspace.copilotDirPath,
        searchCopilotDir, FS.dirExists, FS.lookup, lookupEntries, pathDir, pathBase,
        CopilotDirName, maximumParentDirsToSearch, List.append_assoc, hb]
  · simp [plantedInvocationDir, plantedFS, ancestorNames, Workspace.copilotDirPath,
      searchCopilotDir, FS.dirExists, FS.lookup, lookupEntries, pathDir, pathBase,
      CopilotDirName, maximumParentDirsToSearch, List.append_assoc, hb]

/-- Witness for C1 at the concrete base `["home"]`: depth 3 locates
`home/copilot` and depth 6 fails. -/
theorem copilotDirPath_planted_depths_witness :
    (pathBase ["home"] ≠ CopilotDirName)
    ∧ (Workspace.copilotDirPath ⟨plantedInvocationDir ["home"] 3, none⟩ (plantedFS ["home"] 3)).2
        = .ok (["home"] ++ [CopilotDirName])
    ∧ (Workspace.copilotDirPath ⟨plantedInvocationDir ["home"] 6, none⟩ (plantedFS ["home"] 6)).2
        = .error (.workspaceNotFound (plantedInvocationDir ["home"] 6) CopilotDirName
            maximumParentDirsToSearch) :=
  ⟨by decide,
   (copilotDirPath_planted_depths ["home"] (by decide)).1 3 (by decide),
   (copilotDirPath_planted_depths ["home"] (by decide)).2⟩

/-! ### Enumeration lemmas -/

theorem lookupEntries_mem {es : List (Path × Entry)} {q : Path} {v : Entry}
    (h : lookupEntries es q = some v) : (q, v) ∈ es := by
  induction es with
  | nil => cases h
  | cons e es ih =>
    rw [lookupEntries] at h
    split at h
    · next heq =>
      cases h
      subst heq
      exact List.mem_cons_self _ _
    · exact List.mem_cons_of_mem _ (ih h)

theorem lookupEntries_eq_of_mem_nodup {es : List (Path × Entry)} {q : Path} {v : Entry}
    (hnd : (es.map Prod.fst).Nodup) (h : (q, v) ∈ es) :
    lookupEntries es q = some v := by
  induction es with
  | nil => cases h
  | cons e es ih =>
    rw [List.map_cons, List.nodup_cons] at hnd
    rcases List.mem_cons.mp h with heq | hmem
    · subst heq
      simp [lookupEntries]
    · have hne : e.1 ≠ q := by
        intro hc
        exact hnd.1 (hc ▸ List.mem_map.mpr ⟨(q, v), hmem, rfl⟩)
      simp [lookupEntries, hne, ih hnd.2 hmem]

theorem path_eq_dir_base {q : Path} (h : q ≠ []) : pathDir q ++ [pathBase q] = q := by
  unfold pathDir pathBase
  rw [List.getLast?_eq_getLast q h, Option.getD_some]
  exact List.dropLast_append_getLast h

theorem childEntries_dir_iff {es : List (Path × Entry)} {p : Path} {name : String}
    (hnd : (es.map Prod.fst).Nodup) :
    (name, true) ∈ childEntries es p ↔ lookupEntries es (p ++ [name]) = some .dir := by
  constructor
  · intro h
    obtain ⟨qe, hqe, hf⟩ := List.mem_filterMap.mp h
    split at hf
    · next hcond =>
      simp only [Option.some.injEq, Prod.mk.injEq] at hf
      have hdir : qe.2 = .dir := by
        cases hq2 : qe.2
        · rw [hq2] at hf
          cases hf.2
        · rfl
      have hq1 : qe.1 = p ++ [name] := by
        rw [← path_eq_dir_base hcond.1, hcond.2, hf.1]
      refine lookupEntries_eq_of_mem_nodup hnd ?_
      rw [← hq1, ← hdir]
      exact hqe
    · cases hf
  · intro h
    refine List.mem_filterMap.mpr ⟨(p ++ [name], .dir), lookupEntries_mem h, ?_⟩
    rw [if_pos ⟨by simp, by simp [pathDir]⟩]
    simp [pathBase, Entry.isDirB]

theorem readDir_ok {fs : FS} {p : Path} (hb : p ∉ fs.broken) (hd : fs.lookup p = some .dir) :
    fs.readDir p = .ok (List.insertionSort nameLe (childEntries fs.entries p)) := by
  unfold FS.readDir
  rw [if_neg hb, hd]

theorem processWorkloads_ok {fs : FS} {cp : Path} {m : String → Bool} {L : List (String × Bool)}
    (hall : ∀ nb ∈ L, nb.2 = true → probeOk fs cp nb.1 = true →
      ∃ t, decodeWl fs cp nb.1 = .ok t) :
    processWorkloads fs cp m L
      = .ok (L.filterMap fun nb =>
          if nb.2 = true ∧ selectedWl fs cp m nb.1 = true then some nb.1 else none) := by
  induction L with
  | nil => rfl
  | cons nb rest ih =>
    have ihr := ih (fun x hx => hall x (List.mem_cons_of_mem _ hx))
    by_cases h2 : nb.2 = true
    · by_cases hp : probeOk fs cp nb.1 = true
      · obtain ⟨t, hdw⟩ := hall nb (List.mem_cons_self _ _) h2 hp
        obtain ⟨dat, hrf, hum⟩ : ∃ dat,
            fs.readFile (cp ++ [nb.1, manifestFileName]) = .ok dat
            ∧ unmarshalType dat = .ok t := by
          unfold decodeWl at hdw
          split at hdw
          · cases hdw
          · next dat heq => exact ⟨dat, heq, hdw⟩
        have hpe : (fs.pathExists (cp ++ [nb.1, manifestFileName])).1 = true := hp
        have hsel : selectedWl fs cp m nb.1 = m t := by
          unfold selectedWl
          rw [hdw]
          simp [probeOk, hpe]
        simp only [processWorkloads, h2, hpe, Bool.true_eq_false, if_false, hrf, hum, ihr,
          List.filterMap_cons, hsel, true_and]
        by_cases hm : m t = true
        · simp [hm]
        · simp [hm]
      · have hpe : (fs.pathExists (cp ++ [nb.1, manifestFileName])).1 = false := by
          cases hx : (fs.pathExists (cp ++ [nb.1, manifestFileName])).1
          · rfl
          · exact absurd hx hp
        have hsel : selectedWl fs cp m nb.1 = false := by
          unfold selectedWl
          simp [probeOk, hpe]
        simp [processWorkloads, h2, hpe, ihr, List.filterMap_cons, hsel]
    · have h2f : nb.2 = false := by
        cases hx : nb.2
        · rfl
        · exact absurd hx h2
      simp [processWorkloads, h2f, ihr, List.filterMap_cons]

theorem processWorkloads_error {fs : FS} {cp : Path} (m : String → Bool)
    {L : List (String × Bool)} {name : String} {e : Err}
    (hmem : (name, true) ∈ L) (hp : probeOk fs cp name = true)
    (hdw : decodeWl fs cp name = .error e) :
    ∃ e', processWorkloads fs cp m L = .error e' := by
  induction L with
  | nil => cases hmem
  | cons nb rest ih =>
    rcases List.mem_cons.mp hmem with heq | hmem'
    · subst heq
      have hpe : (fs.pathExists (cp ++ [name, manifestFileName])).1 = true := hp
      unfold decodeWl at hdw
      split at hdw
      · next e1 hrf =>
        exact ⟨.wrapctx "read manifest for workload" [name] e1,
          by simp [processWorkloads, hpe, hrf]⟩
      · next dat hrf =>
        exact ⟨e, by simp [processWorkloads, hpe, hrf, hdw]⟩
    · obtain ⟨e', he'⟩ := ih hmem'
      by_cases h2 : nb.2 = true
      · by_cases hpb : (fs.pathExists (cp ++ [nb.1, manifestFileName])).1 = true
        · rcases hrf : fs.readFile (cp ++ [nb.1, manifestFileName]) with e1 | dat
          · exact ⟨.wrapctx "read manifest for workload" [nb.1] e1,
              by simp [processWorkloads, h2, hpb, hrf]⟩
          · rcases hum : unmarshalType dat with e1 | t
            · exact ⟨e1, by simp [processWorkloads, h2, hpb, hrf, hum]⟩
            · exact ⟨e', by simp [processWorkloads, h2, hpb, hrf, hum, he']⟩
        · have hpb' : (fs.pathExists (cp ++ [nb.1, manifestFileName])).1 = false := by
            cases hx : (fs.pathExists (cp ++ [nb.1, manifestFileName])).1
            · rfl
            · exact absurd hx hpb
          exact ⟨e', by simp [processWorkloads, h2, hpb', he']⟩
      · have h2f : nb.2 = false := by
          cases hx : nb.2
          · rfl
          · exact absurd hx h2
        exact ⟨e', by simp [processWorkloads, h2f, he']⟩

/-- C3: workload enumeration over the listed marker directory.  Part 1:
when every subdirectory whose manifest probe succeeds decodes cleanly, the
enumeration succeeds and contains, as a set, exactly the names of the
immediate subdirectories whose manifest probe reports the file (a probe
stat failure or absence silently excludes the entry) and whose decoded
`type` satisfies the predicate.  Part 2: a decode failure (or read
failure) on a manifest that the probe does report makes the whole
enumeration fail. -/
theorem workloadNames_enumerates {ws ws1 : Workspace} {fs : FS} {cp : Path} (m : String → Bool)
    (hnd : (fs.entries.map Prod.fst).Nodup)
    (hcp : ws.copilotDirPath fs = (ws1, .ok cp))
    (hnb : cp ∉ fs.broken) (hdir : fs.lookup cp = some .dir) :
    ((∀ name, fs.lookup (cp ++ [name]) = some .dir → probeOk fs cp name = true →
        ∃ t, decodeWl fs cp name = .ok t) →
      ∃ l, ws.workloadNames fs m = (ws1, .ok l) ∧
        ∀ name, name ∈ l ↔
          (fs.lookup (cp ++ [name]) = some .dir ∧ selectedWl fs cp m name = true))
    ∧ (∀ name e, fs.lookup (cp ++ [name]) = some .dir → probeOk fs cp name = true →
        decodeWl fs cp name = .error e →
        ∃ e', ws.workloadNames fs m = (ws1, .error e')) := by
  constructor
  · intro hall
    have hallL : ∀ nb ∈ List.insertionSort nameLe (childEntries fs.entries cp),
        nb.2 = true → probeOk fs cp nb.1 = true → ∃ t, decodeWl fs cp nb.1 = .ok t := by
      intro nb hnbm h2 hp
      have hmm : (nb.1, true) ∈ childEntries fs.entries cp := by
        rw [← h2]
        exact (List.mem_insertionSort nameLe).mp hnbm
      exact hall nb.1 ((childEntries_dir_iff hnd).mp hmm) hp
    refine ⟨(List.insertionSort nameLe (childEntries fs.entries cp)).filterMap
        (fun nb => if nb.2 = true ∧ selectedWl fs cp m nb.1 = true then some nb.1 else none),
      ?_, ?_⟩
    · unfold Workspace.workloadNames
      rw [hcp]
      simp only [readDir_ok hnb hdir, processWorkloads_ok hallL]
    · intro name
      rw [List.mem_filterMap]
      constructor
      · rintro ⟨nb, hnbm, hf⟩
        split at hf
        · next hcond =>
          simp only [Option.some.injEq] at hf
          subst hf
          have hmm : (nb.1, true) ∈ childEntries fs.entries cp := by
            rw [← hcond.1]
            exact (List.mem_insertionSort nameLe).mp hnbm
          exact ⟨(childEntries_dir_iff hnd).mp hmm, hcond.2⟩
        · cases hf
      · rintro ⟨hdirn, hsel⟩
        refine ⟨(name, true), ?_, ?_⟩
        · exact (List.mem_insertionSort nameLe).mpr ((childEntries_dir_iff hnd).mpr hdirn)
        · rw [if_pos ⟨rfl, hsel⟩]
  · intro name e hdirn hp hdw
    have hmm : (name, true) ∈ List.insertionSort nameLe (childEntries fs.entries cp) :=
      (List.mem_insertionSort nameLe).mpr ((childEntries_dir_iff hnd).mpr hdirn)
    obtain ⟨e', he'⟩ := processWorkloads_error m hmm hp hdw
    refine ⟨e', ?_⟩
    unfold Workspace.workloadNames
    rw [hcp]
    simp only [readDir_ok hnb hdir, he']

/-- Witness for C3 on the example `{a : X, b : Y, c : X}` with the
predicate "type is X": the enumeration succeeds and membership of each of
`a`, `b`, `c` is characterized by the selection predicate. -/
theorem workloadNames_enumerates_witness :
    ∃ l, Workspace.workloadNames ⟨["r"], some ["r", "copilot"]⟩ exampleWorkloadFS
        (fun t => t == "X") = (⟨["r"], some ["r", "copilot"]⟩, .ok l)
      ∧ ("a" ∈ l ↔ (exampleWorkloadFS.lookup (["r", "copilot"] ++ ["a"]) = some .dir
          ∧ selectedWl exampleWorkloadFS ["r", "copilot"] (fun t => t == "X") "a" = true))
      ∧ ("b" ∈ l ↔ (exampleWorkloadFS.lookup (["r", "copilot"] ++ ["b"]) = some .dir
          ∧ selectedWl exampleWorkloadFS ["r", "copilot"] (fun t => t == "X") "b" = true))
      ∧ ("c" ∈ l ↔ (exampleWorkloadFS.lookup (["r", "copilot"] ++ ["c"]) = some .dir
          ∧ selectedWl exampleWorkloadFS ["r", "copilot"] (fun t => t == "X") "c" = true)) := by
  have hall : ∀ name, exampleWorkloadFS.lookup (["r", "copilot"] ++ [name]) = some .dir →
      probeOk exampleWorkloadFS ["r", "copilot"] name = true →
      ∃ t, decodeWl exampleWorkloadFS ["r", "copilot"] name = .ok t := by
    intro name hdirn hp
    by_cases ha : name = "a"
    · exact ⟨"X", by subst ha; decide⟩
    · by_cases hb : name = "b"
      · exact ⟨"Y", by subst hb; decide⟩
      · by_cases hc : name = "c"
        · exact ⟨"X", by subst hc; decide⟩
        · exfalso
          simp [exampleWorkloadFS, FS.lookup, lookupEntries,
            Ne.symm ha, Ne.symm hb, Ne.symm hc] at hdirn
  obtain ⟨l, hwl, hiff⟩ :=
    (@workloadNames_enumerates ⟨["r"], some ["r", "copilot"]⟩ ⟨["r"], some ["r", "copilot"]⟩
      exampleWorkloadFS ["r", "copilot"] (fun t => t == "X") (by decide) (by decide)
      (by decide) (by decide)).1 hall
  exact ⟨l, hwl, hiff "a", hiff "b", hiff "c"⟩

/-! ### Dockerfile discovery lemmas -/

theorem mem_childEntries {es : List (Path × Entry)} {p : Path} {nb : String × Bool} :
    nb ∈ childEntries es p
      ↔ ∃ qe ∈ es, qe.1 ≠ [] ∧ pathDir qe.1 = p ∧ (pathBase qe.1, qe.2.isDirB) = nb := by
  unfold childEntries
  rw [List.mem_filterMap]
  constructor
  · rintro ⟨qe, hqe, hf⟩
    split at hf
    · next hc =>
      cases hf
      exact ⟨qe, hqe, hc.1, hc.2, rfl⟩
    · cases hf
  · rintro ⟨qe, hqe, h1, h2, h3⟩
    exact ⟨qe, hqe, by rw [if_pos ⟨h1, h2⟩, h3]⟩

theorem childEntries_file_iff {es : List (Path × Entry)} {p : Path} {name : String}
    (hnd : (es.map Prod.fst).Nodup) :
    (name, false) ∈ childEntries es p
      ↔ ∃ bts, lookupEntries es (p ++ [name]) = some (.file bts) := by
  rw [mem_childEntries]
  constructor
  · rintro ⟨⟨q1, q2⟩, hqe, h1, h2, h3⟩
    simp only [Prod.mk.injEq] at h3
    obtain ⟨bts, hb⟩ : ∃ bts, q2 = .file bts := by
      cases hq : q2
      · exact ⟨_, rfl⟩
      · rw [hq] at h3
        cases h3.2
    have hq1 : q1 = p ++ [name] := by
      have := path_eq_dir_base (q := q1) h1
      rw [h2, h3.1] at this
      exact this.symm
    subst hq1
    subst hb
    exact ⟨bts, lookupEntries_eq_of_mem_nodup hnd hqe⟩
  · rintro ⟨bts, hl⟩
    refine ⟨(p ++ [name], .file bts), lookupEntries_mem hl, by simp, by simp [pathDir], ?_⟩
    simp [pathBase, Entry.isDirB]

theorem childEntries_fst_nodup {es : List (Path × Entry)} {p : Path}
    (hnd : (es.map Prod.fst).Nodup) : ((childEntries es p).map Prod.fst).Nodup := by
  induction es with
  | nil => simp [childEntries]
  | cons e es ih =>
    rw [List.map_cons, List.nodup_cons] at hnd
    have iht := ih hnd.2
    by_cases hcond : (e.1 ≠ [] ∧ pathDir e.1 = p)
    · have hstep : childEntries (e :: es) p = (pathBase e.1, e.2.isDirB) :: childEntries es p := by
        unfold childEntries
        rw [List.filterMap_cons, if_pos hcond]
      rw [hstep, List.map_cons, List.nodup_cons]
      refine ⟨?_, iht⟩
      intro hmem
      obtain ⟨nb, hnb, hfst⟩ := List.mem_map.mp hmem
      obtain ⟨qe, hqe, hq1, hq2, hq3⟩ := mem_childEntries.mp hnb
      have hbase : pathBase qe.1 = pathBase e.1 := by
        have : (pathBase qe.1, qe.2.isDirB).1 = nb.1 := by rw [hq3]
        simp only at this
        rw [this, hfst]
      have hkey : qe.1 = e.1 := by
        have h1 := path_eq_dir_base (q := qe.1) hq1
        have h2 := path_eq_dir_base (q := e.1) hcond.1
        rw [hq2, hbase] at h1
        rw [hcond.2] at h2
        exact h1.symm.trans h2
      exact hnd.1 (hkey ▸ List.mem_map.mpr ⟨qe, hqe, rfl⟩)
    · have hstep : childEntries (e :: es) p = childEntries es p := by
        unfold childEntries
        rw [List.filterMap_cons, if_neg hcond]
      rw [hstep]
      exact iht

theorem isDockerfileFileAt_iff {fs : FS} {q : Path} :
    isDockerfileFileAt fs q = true ↔ ∃ bts, fs.lookup q = some (.file bts) := by
  unfold isDockerfileFileAt
  split
  · next bts heq => simp [heq]
  · next hno =>
    simp only [Bool.false_eq_true, false_iff]
    rintro ⟨bts, hl⟩
    exact hno bts hl

theorem filterMap_marker_eq {nm : String} {L : List (String × Bool)}
    (hnd : (L.map Prod.fst).Nodup) :
    L.filterMap (fun f => if f.2 = false ∧ f.1 = dockerfileName then some nm else none)
      = if (dockerfileName, false) ∈ L then [nm] else [] := by
  induction L with
  | nil => rfl
  | cons f t ih =>
    rw [List.map_cons, List.nodup_cons] at hnd
    have iht := ih hnd.2
    by_cases h1 : f.1 = dockerfileName
    · have hmem : (dockerfileName, false) ∉ t := by
        intro hc
        exact hnd.1 (h1 ▸ List.mem_map.mpr ⟨(dockerfileName, false), hc, rfl⟩)
      have htail : t.filterMap
          (fun f => if f.2 = false ∧ f.1 = dockerfileName then some nm else none) = [] := by
        rw [iht, if_neg hmem]
      by_cases h2 : f.2 = false
      · have hfm : f = (dockerfileName, false) := by
          rcases f with ⟨f1, f2⟩
          simp only at h1 h2
          rw [h1, h2]
        rw [List.filterMap_cons, if_pos ⟨h2, h1⟩, htail,
          if_pos (List.mem_cons.mpr (Or.inl hfm.symm))]
      · have h2' : f.2 = true := by
          cases hx : f.2
          · exact absurd hx h2
          · rfl
        have hmemc : (dockerfileName, false) ∉ f :: t := by
          rw [List.mem_cons]
          rintro (hc | hc)
          · rw [← hc] at h2'
            cases h2'
          · exact hmem hc
        rw [List.filterMap_cons, if_neg (by simp [h2']), iht, if_neg hmem, if_neg hmemc]
    · have hmemiff : ((dockerfileName, false) ∈ f :: t) ↔ ((dockerfileName, false) ∈ t) := by
        rw [List.mem_cons]
        constructor
        · rintro (hc | hc)
          · exact absurd (by rw [← hc]) h1
          · exact hc
        · exact Or.inr
      rw [List.filterMap_cons, if_neg (by simp [h1]), iht]
      by_cases hm : (dockerfileName, false) ∈ t
      · rw [if_pos hm, if_pos (hmemiff.mpr hm)]
      · rw [if_neg hm, if_neg (fun hc => hm (hmemiff.mp hc))]

theorem filterMap_dfContrib_perm {fs : FS} {w : Path} {L : List (String × Bool)}
    (hnd : (L.map Prod.fst).Nodup) :
    (L.filterMap (dfContrib fs w)).Perm
      ((if (dockerfileName, false) ∈ L then ["."] else []) ++ L.filterMap (dfDirContrib fs w)) := by
  induction L with
  | nil => rfl
  | cons f t ih =>
    rw [List.map_cons, List.nodup_cons] at hnd
    have iht := ih hnd.2
    by_cases h2 : f.2 = false
    · have hdir : dfDirContrib fs w f = none := by
        unfold dfDirContrib
        rw [if_neg (by simp [h2])]
      by_cases h1 : f.1 = dockerfileName
      · have hmem : (dockerfileName, false) ∉ t := by
          intro hc
          exact hnd.1 (h1 ▸ List.mem_map.mpr ⟨(dockerfileName, false), hc, rfl⟩)
        have hfm : f = (dockerfileName, false) := by
          rcases f with ⟨f1, f2⟩
          simp only at h1 h2
          rw [h1, h2]
        rw [List.filterMap_cons, List.filterMap_cons, hdir]
        have hhead : dfContrib fs w f = some "." := by
          unfold dfContrib
          rw [if_pos h2, if_pos h1]
        rw [hhead, if_pos (List.mem_cons.mpr (Or.inl hfm.symm))]
        rw [if_neg hmem] at iht
        simpa using iht.cons "."
      · have hhead : dfContrib fs w f = none := by
          unfold dfContrib
          rw [if_pos h2, if_neg h1]
        have hmemiff : ((dockerfileName, false) ∈ f :: t) ↔ ((dockerfileName, false) ∈ t) := by
          rw [List.mem_cons]
          constructor
          · rintro (hc | hc)
            · exact absurd (by rw [← hc]) h1
            · exact hc
          · exact Or.inr
        rw [List.filterMap_cons, List.filterMap_cons, hhead, hdir]
        by_cases hm : (dockerfileName, false) ∈ t
        · rw [if_pos (hmemiff.mpr hm)]
          rw [if_pos hm] at iht
          exact iht
        · rw [if_neg (fun hc => hm (hmemiff.mp hc))]
          rw [if_neg hm] at iht
          exact iht
    · have h2' : f.2 = true := by
        cases hx : f.2
        · exact absurd hx h2
        · rfl
      have hhead : dfContrib fs w f = dfDirContrib fs w f := by
        unfold dfContrib
        rw [if_neg (by simp [h2'])]
      have hmemiff : ((dockerfileName, false) ∈ f :: t) ↔ ((dockerfileName, false) ∈ t) := by
        rw [List.mem_cons]
        constructor
        · rintro (hc | hc)
          · rw [← hc] at h2'
            cases h2'
          · exact hc
        · exact Or.inr
      rw [List.filterMap_cons, List.filterMap_cons, hhead]
      cases hdc : dfDirContrib fs w f with
      | none =>
        by_cases hm : (dockerfileName, false) ∈ t
        · rw [if_pos (hmemiff.mpr hm)]
          rw [if_pos hm] at iht
          exact iht
        · rw [if_neg (fun hc => hm (hmemiff.mp hc))]
          rw [if_neg hm] at iht
          exact iht
      | some x =>
        by_cases hm : (dockerfileName, false) ∈ t
        · rw [if_pos (hmemiff.mpr hm)]
          rw [if_pos hm] at iht
          exact (iht.cons x).trans (List.perm_middle).symm
        · rw [if_neg (fun hc => hm (hmemiff.mp hc))]
          rw [if_neg hm] at iht
          exact iht.cons x

theorem collectDockerfileDirs_ok {ws : Workspace} {fs : FS} {L : List (String × Bool)}
    (hnd : (fs.entries.map Prod.fst).Nodup)
    (hbroken : fs.broken = [])
    (hsub : ∀ nb ∈ L, nb.2 = true → fs.lookup (ws.workingDir ++ [nb.1]) = some .dir) :
    collectDockerfileDirs ws fs L = .ok (L.filterMap (dfContrib fs ws.workingDir)) := by
  induction L with
  | nil => rfl
  | cons nb rest ih =>
    have ihr := ih (fun x hx => hsub x (List.mem_cons_of_mem _ hx))
    by_cases h2 : nb.2 = false
    · have hhead : dfContrib fs ws.workingDir nb
          = (if nb.1 = dockerfileName then some "." else none) := by
        unfold dfContrib
        rw [if_pos h2]
      simp only [collectDockerfileDirs, h2, if_true, ihr, List.filterMap_cons, hhead]
      by_cases hdn : nb.1 = dockerfileName
      · simp [hdn]
      · simp [hdn]
    · have h2' : nb.2 = true := by
        cases hx : nb.2
        · exact absurd hx h2
        · rfl
      have hlk := hsub nb (List.mem_cons_self _ _) h2'
      have hnbk : (ws.workingDir ++ [nb.1]) ∉ fs.broken := by
        rw [hbroken]
        simp
      have hrd : fs.readDir (ws.resolve [nb.1])
          = .ok (List.insertionSort nameLe (childEntries fs.entries (ws.workingDir ++ [nb.1]))) :=
        readDir_ok hnbk hlk
      have hndsub : ((childEntries fs.entries (ws.workingDir ++ [nb.1])).map Prod.fst).Nodup :=
        childEntries_fst_nodup hnd
      have hndsorted : ((List.insertionSort nameLe
          (childEntries fs.entries (ws.workingDir ++ [nb.1]))).map Prod.fst).Nodup :=
        (((List.perm_insertionSort nameLe _).map Prod.fst).nodup_iff).mpr hndsub
      have hsubfm := @filterMap_marker_eq nb.1
        (List.insertionSort nameLe (childEntries fs.entries (ws.workingDir ++ [nb.1]))) hndsorted
      have hhead : dfContrib fs ws.workingDir nb = dfDirContrib fs ws.workingDir nb := by
        unfold dfContrib
        rw [if_neg (by simp [h2'])]
      have hmem_iff : ((dockerfileName, false)
            ∈ List.insertionSort nameLe (childEntries fs.entries (ws.workingDir ++ [nb.1])))
          ↔ isDockerfileFileAt fs (ws.workingDir ++ [nb.1, dockerfileName]) = true := by
        rw [List.mem_insertionSort nameLe, childEntries_file_iff hnd, isDockerfileFileAt_iff]
        have : (ws.workingDir ++ [nb.1]) ++ [dockerfileName]
            = ws.workingDir ++ [nb.1, dockerfileName] := by simp
        rw [this]
        rfl
      simp only [collectDockerfileDirs, h2', Bool.true_eq_false, if_false, hrd, ihr,
        List.filterMap_cons, hhead, hsubfm]
      by_cases hdf : isDockerfileFileAt fs (ws.workingDir ++ [nb.1, dockerfileName]) = true
      · rw [if_pos (hmem_iff.mpr hdf)]
        have : dfDirContrib fs ws.workingDir nb = some nb.1 := by
          unfold dfDirContrib
          rw [if_pos ⟨h2', hdf⟩]
        rw [this]
        rfl
      · rw [if_neg (fun hc => hdf (hmem_iff.mp hc))]
        have : dfDirContrib fs ws.workingDir nb = none := by
          unfold dfDirContrib
          rw [if_neg (fun hc => hdf hc.2)]
        rw [this]
        rfl

/-- C6: `ListDockerfiles` scans exactly the invocation directory and its
immediate subdirectories: it returns the qualifying directories sorted
lexicographically ascending, each rendered as `<dir>/Dockerfile` with the
invocation directory itself rendered as `./Dockerfile`; and when nothing
in this two-level scope holds a regular file named `Dockerfile`, it fails
with `ErrDockerfileNotFound` carrying the scanned directory. -/
theorem listDockerfiles_scan {ws : Workspace} {fs : FS}
    (hnd : (fs.entries.map Prod.fst).Nodup)
    (hbroken : fs.broken = [])
    (hwd : fs.lookup ws.workingDir = some .dir) :
    ws.listDockerfiles fs =
      (if specDockerfileDirs fs ws.workingDir = []
       then .error (.dockerfileNotFound ws.workingDir)
       else .ok ((List.insertionSort strLe (specDockerfileDirs fs ws.workingDir)).map
          (fun dir => dir ++ "/" ++ dockerfileName))) := by
  have hnbw : ws.workingDir ∉ fs.broken := by
    rw [hbroken]
    simp
  have htop : fs.readDir ws.workingDir
      = .ok (List.insertionSort nameLe (childEntries fs.entries ws.workingDir)) :=
    readDir_ok hnbw hwd
  have hsub : ∀ nb ∈ List.insertionSort nameLe (childEntries fs.entries ws.workingDir),
      nb.2 = true → fs.lookup (ws.workingDir ++ [nb.1]) = some .dir := by
    intro nb hm h2
    have hmm : (nb.1, true) ∈ childEntries fs.entries ws.workingDir := by
      rw [← h2]
      exact (List.mem_insertionSort nameLe).mp hm
    exact (childEntries_dir_iff hnd).mp hmm
  have hcol := collectDockerfileDirs_ok (L := List.insertionSort nameLe
    (childEntries fs.entries ws.workingDir)) hnd hbroken hsub
  have hperm : ((List.insertionSort nameLe (childEntries fs.entries ws.workingDir)).filterMap
      (dfContrib fs ws.workingDir)).Perm (specDockerfileDirs fs ws.workingDir) := by
    have p1 := (List.perm_insertionSort nameLe
      (childEntries fs.entries ws.workingDir)).filterMap (dfContrib fs ws.workingDir)
    have p2 := @filterMap_dfContrib_perm fs ws.workingDir
      (childEntries fs.entries ws.workingDir) (@childEntries_fst_nodup fs.entries ws.workingDir hnd)
    have hmem_iff : ((dockerfileName, false) ∈ childEntries fs.entries ws.workingDir)
        ↔ isDockerfileFileAt fs (ws.workingDir ++ [dockerfileName]) = true := by
      rw [childEntries_file_iff hnd, isDockerfileFileAt_iff]
      rfl
    have heq : ((if (dockerfileName, false) ∈ childEntries fs.entries ws.workingDir
          then ["."] else []) ++ (childEntries fs.entries ws.workingDir).filterMap
            (dfDirContrib fs ws.workingDir))
        = specDockerfileDirs fs ws.workingDir := by
      unfold specDockerfileDirs
      by_cases hdf : isDockerfileFileAt fs (ws.workingDir ++ [dockerfileName]) = true
      · rw [if_pos (hmem_iff.mpr hdf), if_pos hdf]
      · rw [if_neg (fun hc => hdf (hmem_iff.mp hc)),
          if_neg (fun hc => (fun h => hdf (hmem_iff.mp h)) (hmem_iff.mpr hc))]
    exact (p1.trans p2).trans (heq ▸ List.Perm.refl _)
  unfold Workspace.listDockerfiles
  rw [htop]
  simp only [hcol]
  by_cases hsp : specDockerfileDirs fs ws.workingDir = []
  · have hcolnil : (List.insertionSort nameLe (childEntries fs.entries ws.workingDir)).filterMap
        (dfContrib fs ws.workingDir) = [] := by
      apply List.Perm.eq_nil
      rw [← hsp]
      exact hperm
    rw [if_pos hcolnil, if_pos hsp]
  · have hcolne : (List.insertionSort nameLe (childEntries fs.entries ws.workingDir)).filterMap
        (dfContrib fs ws.workingDir) ≠ [] := by
      intro hc
      exact hsp (List.Perm.eq_nil (hc ▸ hperm.symm))
    rw [if_neg hcolne, if_neg hsp]
    have hsorteq : List.insertionSort strLe
          ((List.insertionSort nameLe (childEntries fs.entries ws.workingDir)).filterMap
            (dfContrib fs ws.workingDir))
        = List.insertionSort strLe (specDockerfileDirs fs ws.workingDir) := by
      exact List.eq_of_perm_of_sorted
        (((List.perm_insertionSort strLe _).trans hperm).trans
          (List.perm_insertionSort strLe _).symm)
        (List.sorted_insertionSort strLe _) (List.sorted_insertionSort strLe _)
    rw [hsorteq]

/-- Witness for C6 on the spec's example: `Dockerfile` at the invocation
directory and under `sub1` but not `sub2` yields
`["./Dockerfile", "sub1/Dockerfile"]` sorted; an empty scope fails. -/
theorem listDockerfiles_scan_witness :
    (Workspace.listDockerfiles ⟨["r"], none⟩
        ⟨[(["r"], .dir), (["r", "Dockerfile"], .file (.invalidYaml 0)),
          (["r", "sub1"], .dir), (["r", "sub1", "Dockerfile"], .file (.invalidYaml 1)),
          (["r", "sub2"], .dir)], []⟩
      = (if specDockerfileDirs ⟨[(["r"], .dir), (["r", "Dockerfile"], .file (.invalidYaml 0)),
          (["r", "sub1"], .dir), (["r", "sub1", "Dockerfile"], .file (.invalidYaml 1)),
          (["r", "sub2"], .dir)], []⟩ ["r"] = []
         then .error (.dockerfileNotFound ["r"])
         else .ok ((List.insertionSort strLe (specDockerfileDirs
            ⟨[(["r"], .dir), (["r", "Dockerfile"], .file (.invalidYaml 0)),
              (["r", "sub1"], .dir), (["r", "sub1", "Dockerfile"], .file (.invalidYaml 1)),
              (["r", "sub2"], .dir)], []⟩ ["r"])).map (fun dir => dir ++ "/" ++ dockerfileName))))
    ∧ Workspace.listDockerfiles ⟨["r"], none⟩
        ⟨[(["r"], .dir), (["r", "Dockerfile"], .file (.invalidYaml 0)),
          (["r", "sub1"], .dir), (["r", "sub1", "Dockerfile"], .file (.invalidYaml 1)),
          (["r", "sub2"], .dir)], []⟩
      = .ok ["./Dockerfile", "sub1/Dockerfile"] :=
  by
  have hthm := @listDockerfiles_scan ⟨["r"], none⟩
    ⟨[(["r"], .dir), (["r", "Dockerfile"], .file (.invalidYaml 0)),
      (["r", "sub1"], .dir), (["r", "sub1", "Dockerfile"], .file (.invalidYaml 1)),
      (["r", "sub2"], .dir)], []⟩
    (by decide) (by decide) (by decide)
  refine ⟨hthm, ?_⟩
  have hspec : specDockerfileDirs
      ⟨[(["r"], .dir), (["r", "Dockerfile"], .file (.invalidYaml 0)),
        (["r", "sub1"], .dir), (["r", "sub1", "Dockerfile"], .file (.invalidYaml 1)),
        (["r", "sub2"], .dir)], []⟩ ["r"] = [".", "sub1"] := by decide
  have hle : strLe "." "sub1" := by
    show ("." : String) ≤ "sub1"
    rw [String.le_iff_toList_le]
    decide
  have hsort : List.insertionSort strLe [".", "sub1"] = [".", "sub1"] := by
    simp only [List.insertionSort, List.orderedInsert]
    rw [if_pos hle]
  rw [hthm, hspec, if_neg (by decide), hsort]
  decide

end CopilotWS
